import Mathlib

/-!
Formal model of the wiki-climate ingestion pipeline.

The program harvests "Weather box" infoboxes from encyclopedia articles,
coerces monthly text values to numbers, validates completeness, converts
imperial units to metric, computes yearly aggregates and standard
deviations, and inserts one record per city into a document store.

Python floats are modelled as exact rationals.  Because Mathlib's rational
arithmetic is `@[irreducible]`, every operation used inside the executable
pipeline is defined through the kernel-computable `mkRat` / `Rat.divInt`,
and bridge lemmas relate those operations to the ambient field structure
of `ℚ`.  Dictionaries are modelled as association lists with Python's
dict semantics (insertion order, overwrite in place), fallible code
returns `Except PyErr`, and the external wiki site is a function from
page titles to pages.
-/

namespace WikiClimate

/-! ### Kernel-computable rational arithmetic -/

/-- Addition on `ℚ` via `mkRat`, reducible in the kernel. -/
def qadd (a b : ℚ) : ℚ := mkRat (a.num * b.den + b.num * a.den) (a.den * b.den)

/-- Subtraction on `ℚ` via `mkRat`, reducible in the kernel. -/
def qsub (a b : ℚ) : ℚ := mkRat (a.num * b.den - b.num * a.den) (a.den * b.den)

/-- Multiplication on `ℚ` via `mkRat`, reducible in the kernel. -/
def qmul (a b : ℚ) : ℚ := mkRat (a.num * b.num) (a.den * b.den)

/-- Division on `ℚ` via `Rat.divInt`, reducible in the kernel. -/
def qdiv (a b : ℚ) : ℚ := Rat.divInt (a.num * b.den) (a.den * b.num)

/-- The rational `n / d`, reducible in the kernel. -/
def qOf (n : Int) (d : Nat) : ℚ := mkRat n d

theorem qadd_eq (a b : ℚ) : qadd a b = a + b := by
  rw [qadd, Rat.mkRat_eq_div]
  push_cast
  conv_rhs => rw [← Rat.num_div_den a, ← Rat.num_div_den b]
  have ha : (a.den : ℚ) ≠ 0 := by exact_mod_cast a.den_nz
  have hb : (b.den : ℚ) ≠ 0 := by exact_mod_cast b.den_nz
  field_simp

theorem qsub_eq (a b : ℚ) : qsub a b = a - b := by
  rw [qsub, Rat.mkRat_eq_div]
  push_cast
  conv_rhs => rw [← Rat.num_div_den a, ← Rat.num_div_den b]
  have ha : (a.den : ℚ) ≠ 0 := by exact_mod_cast a.den_nz
  have hb : (b.den : ℚ) ≠ 0 := by exact_mod_cast b.den_nz
  field_simp
  ring

theorem qmul_eq (a b : ℚ) : qmul a b = a * b := by
  rw [qmul, Rat.mkRat_eq_div]
  push_cast
  conv_rhs => rw [← Rat.num_div_den a, ← Rat.num_div_den b]
  have ha : (a.den : ℚ) ≠ 0 := by exact_mod_cast a.den_nz
  have hb : (b.den : ℚ) ≠ 0 := by exact_mod_cast b.den_nz
  field_simp

theorem qdiv_eq (a b : ℚ) : qdiv a b = a / b := by
  rw [qdiv, Rat.divInt_eq_div]
  push_cast
  by_cases hb0 : b = 0
  · subst hb0; simp
  · conv_rhs => rw [← Rat.num_div_den a, ← Rat.num_div_den b]
    have ha : (a.den : ℚ) ≠ 0 := by exact_mod_cast a.den_nz
    have hbd : (b.den : ℚ) ≠ 0 := by exact_mod_cast b.den_nz
    have hbn : (b.num : ℚ) ≠ 0 := by exact_mod_cast Rat.num_ne_zero.mpr hb0
    field_simp

theorem qOf_eq (n : Int) (d : Nat) : qOf n d = (n : ℚ) / d := by
  rw [qOf, Rat.mkRat_eq_div]

/-- Sum of a list of rationals, as Python's builtin sum starting at 0. -/
def qsum (xs : List ℚ) : ℚ := xs.foldl qadd (qOf 0 1)

/-- Model of Python's builtin max on a nonempty list (0 on the empty list,
which the program never passes). -/
def pymax : List ℚ → ℚ
  | [] => qOf 0 1
  | x :: xs => xs.foldl (fun a b => if a < b then b else a) x

/-- Model of Python's builtin min on a nonempty list (0 on the empty list,
which the program never passes). -/
def pymin : List ℚ → ℚ
  | [] => qOf 0 1
  | x :: xs => xs.foldl (fun a b => if b < a then b else a) x

/-- Round half to even of a rational to an integer, the tie-break of
Python's builtin round on exact values. -/
def roundHE (x : ℚ) : ℤ :=
  let f := x.floor
  let r := qsub x (qOf f 1)
  if r < qOf 1 2 then f
  else if qOf 1 2 < r then f + 1
  else if f % 2 = 0 then f else f + 1

/-- Model of Python's round(x, 1): round to one decimal, half to even. -/
def round1 (x : ℚ) : ℚ := qOf (roundHE (qmul x (qOf 10 1))) 10

/-! ### Numeric helpers of src/main.py -/

/-- Model of month_avg (src/main.py line 36): sum of the list divided by
the constant 12. -/
def month_avg (xs : List ℚ) : ℚ := qdiv (qsum xs) (qOf 12 1)

/-- Model of f2c (src/main.py line 40): Fahrenheit to Celsius. -/
def f2c (f : ℚ) : ℚ := qdiv (qsub f (qOf 32 1)) (qOf 18 10)

/-- Model of i2mm (src/main.py line 49): inches to millimeters. -/
def i2mm (i : ℚ) : ℚ := qmul i (qOf 254 10)

theorem month_avg_eq (xs : List ℚ) : month_avg xs = qsum xs / 12 := by
  rw [month_avg, qdiv_eq, qOf_eq]; norm_num

theorem f2c_eq (f : ℚ) : f2c f = (f - 32) / 1.8 := by
  rw [f2c, qdiv_eq, qsub_eq, qOf_eq, qOf_eq]; norm_num

theorem i2mm_eq (i : ℚ) : i2mm i = i * 25.4 := by
  rw [i2mm, qmul_eq, qOf_eq]; norm_num

/-- Population variance of a list (statistics.pstdev squares this root). -/
def pvariance (xs : List ℚ) : ℚ :=
  let mu := qdiv (qsum xs) (qOf xs.length 1)
  qdiv (qsum (xs.map (fun x => qmul (qsub x mu) (qsub x mu)))) (qOf xs.length 1)

/-- Round half to even of the square root of a nonnegative rational. -/
def sqrtRoundHE (t : ℚ) : ℤ :=
  let k : ℤ := Nat.sqrt t.floor.toNat
  if qmul (qOf 4 1) t < qOf ((2 * k + 1) ^ 2) 1 then k
  else if qOf ((2 * k + 1) ^ 2) 1 < qmul (qOf 4 1) t then k + 1
  else if k % 2 = 0 then k else k + 1

/-- Model of round(statistics.pstdev(xs), 1): the population standard
deviation rounded to one decimal, computed as the half-even rounding of
the square root of 100 times the population variance, divided by 10. -/
def pstdevR1 (xs : List ℚ) : ℚ := qOf (sqrtRoundHE (qmul (qOf 100 1) (pvariance xs))) 10

/-! ### String helpers: Python str and re operations on char lists -/

/-- Numeric value of a list of decimal digit characters. -/
def natOfDigits (ds : List Char) : Nat :=
  ds.foldl (fun acc c => 10 * acc + (c.toNat - 48)) 0

/-- Model of Python str.strip(): drop whitespace at both ends. -/
def pyStrip (s : String) : String :=
  (((s.toList.dropWhile Char.isWhitespace).reverse.dropWhile Char.isWhitespace).reverse).asString

/-- Replacement worker: scan the text left to right; at an occurrence of
the pattern emit the replacement and skip the pattern's length.  The
counter is the number of characters still to skip. -/
def repAux (pat rep : List Char) : List Char → Nat → List Char
  | [], _ => []
  | _ :: rest, Nat.succ k => repAux pat rep rest k
  | c :: rest, 0 =>
    if pat.isPrefixOf (c :: rest) then rep ++ repAux pat rep rest (pat.length - 1)
    else c :: repAux pat rep rest 0

/-- Model of Python str.replace for a non-empty pattern. -/
def pyReplace (s pat rep : String) : String :=
  if pat.toList.isEmpty then s else (repAux pat.toList rep.toList s.toList 0).asString

/-- The replacement chain of src/main.py lines 130-134: the Unicode minus
sign, the HTML entity of minus, and the em dash become an ASCII hyphen,
and the token trace becomes 0, in the source's order. -/
def pyNormalize (s : String) : String :=
  pyReplace (pyReplace (pyReplace (pyReplace s "−" "-") "&minus;" "-") "trace" "0") "—" "-"

/-- Substring containment on char lists (Python's in on str). -/
def isSubstrOf (pat : List Char) : List Char → Bool
  | [] => pat.isEmpty
  | c :: rest => pat.isPrefixOf (c :: rest) || isSubstrOf pat rest

/-- Model of the Python test month + ' ' in key (src/main.py line 128). -/
def tok (m k : String) : Bool := isSubstrOf (m ++ " ").toList k.toList

/-- Suffix after the first occurrence of the pattern, if any. -/
def afterFirstL (pat : List Char) : List Char → Option (List Char)
  | [] => if pat.isPrefixOf ([] : List Char) then some [] else none
  | c :: rest =>
    if pat.isPrefixOf (c :: rest) then some ((c :: rest).drop pat.length)
    else afterFirstL pat rest

/-- Text before the last whitespace character, if any. -/
def beforeLastSpaceL (s : List Char) : Option (List Char) :=
  match s.reverse.dropWhile (fun c => !c.isWhitespace) with
  | [] => none
  | _ :: rest => some rest.reverse

/-- Text after the first whitespace character, if any. -/
def afterFirstSpaceL (s : List Char) : Option (List Char) :=
  match s.dropWhile (fun c => !c.isWhitespace) with
  | [] => none
  | _ :: rest => some rest

/-- Text before the last closing parenthesis, if any. -/
def beforeLastParenL (s : List Char) : Option (List Char) :=
  match s.reverse.dropWhile (fun c => !(c = ')')) with
  | [] => none
  | _ :: rest => some rest.reverse

/-- Model of the group of the regex Point followed by an opening
parenthesis, then a greedy group, then whitespace (src/main.py line 115):
the text between the first Point followed by an opening parenthesis and
the last following whitespace. -/
def reLatGroup (gps : String) : Option String :=
  ((afterFirstL "Point(".toList gps.toList).bind beforeLastSpaceL).map List.asString

/-- Model of the group of the regex whitespace, greedy group, closing
parenthesis (src/main.py line 116): the text between the first whitespace
and the last closing parenthesis. -/
def reLonGroup (gps : String) : Option String :=
  ((afterFirstSpaceL gps.toList).bind beforeLastParenL).map List.asString

/-- Model of the regex wiki/ followed by a greedy group
(src/main.py line 77): everything after the first wiki/ occurrence. -/
def reWikiTitle (article : String) : Option String :=
  (afterFirstL "wiki/".toList article.toList).map List.asString

/-! ### Model of Python numeric parsing (builtins float and int) -/

/-- Optional leading sign, returning the sign and remaining text. -/
def readSign : List Char → Int × List Char
  | '+' :: rest => (1, rest)
  | '-' :: rest => (-1, rest)
  | cs => (1, cs)

/-- Optional exponent suffix of a float literal. -/
def applyExp (m : ℚ) : List Char → Option ℚ
  | [] => some m
  | e :: rest =>
    if e = 'e' ∨ e = 'E' then
      let (es, rest1) := readSign rest
      let (ds, rest2) := rest1.span Char.isDigit
      if ds.isEmpty || !rest2.isEmpty then none
      else if es = 1 then some (qmul m (qOf ((10 : Int) ^ natOfDigits ds) 1))
      else some (qdiv m (qOf ((10 : Int) ^ natOfDigits ds) 1))
    else none

/-- Core decimal parsing of a Python float literal: optional sign, digits
with at most one point and at least one digit, optional exponent. -/
def pyFloatCore (cs : List Char) : Option ℚ :=
  let (sg, cs1) := readSign cs
  let (ip, cs2) := cs1.span Char.isDigit
  match cs2 with
  | '.' :: cs3 =>
    let (fp, cs4) := cs3.span Char.isDigit
    if ip.isEmpty && fp.isEmpty then none
    else applyExp (qmul (qOf sg 1)
      (qdiv (qOf (natOfDigits (ip ++ fp)) 1) (qOf ((10 : Int) ^ fp.length) 1))) cs4
  | _ => if ip.isEmpty then none else applyExp (qmul (qOf sg 1) (qOf (natOfDigits ip) 1)) cs2

/-- Model of Python's float(str): strip whitespace, then parse a decimal
literal; none models a ValueError. -/
def pyFloat (s : String) : Option ℚ := pyFloatCore (pyStrip s).toList

/-- Model of Python's int(str): strip whitespace, optional sign, digits
only; none models a ValueError. -/
def pyInt (s : String) : Option ℤ :=
  let cs := (pyStrip s).toList
  let (sg, cs1) := readSign cs
  let (ds, rest) := cs1.span Char.isDigit
  if ds.isEmpty || !rest.isEmpty then none else some (sg * (natOfDigits ds : Int))

/-- Decidable equality of exception outcomes, for concrete evaluation. -/
instance exceptDecEq {ε α : Type} [DecidableEq ε] [DecidableEq α] : DecidableEq (Except ε α) := fun
  | Except.ok a, Except.ok b =>
    if h : a = b then Decidable.isTrue (by rw [h])
    else Decidable.isFalse (by intro hc; cases hc; exact h rfl)
  | Except.ok _, Except.error _ => Decidable.isFalse (by intro hc; cases hc)
  | Except.error _, Except.ok _ => Decidable.isFalse (by intro hc; cases hc)
  | Except.error e, Except.error f =>
    if h : e = f then Decidable.isTrue (by rw [h])
    else Decidable.isFalse (by intro hc; cases hc; exact h rfl)

/-! ### Values, records and Python dict semantics -/

/-- A Python value stored in a weather-box record: a raw string, a float
(modelled as an exact rational), or an int. -/
inductive Value where
  | str : String → Value
  | num : ℚ → Value
  | intv : ℤ → Value
deriving DecidableEq

/-- A record (Python dict keyed by strings), as an association list in
insertion order with distinct keys. -/
abbrev Box := List (String × Value)

/-- Lookup of a key (Python dict indexing, first matching entry). -/
def bGet? : Box → String → Option Value
  | [], _ => none
  | (k, v) :: rest, key => if k = key then some v else bGet? rest key

/-- Key membership (Python's in on a dict). -/
def bHas (b : Box) (k : String) : Bool := (bGet? b k).isSome

/-- Assignment (Python dict item assignment): overwrite the first entry
with that key in place, or append a new entry at the end. -/
def bSet : Box → String → Value → Box
  | [], key, v => [(key, v)]
  | (k, w) :: rest, key, v =>
    if k = key then (k, v) :: rest else (k, w) :: bSet rest key v

/-- Deletion of the first entry with that key (Python del, with the
KeyError on absence raised by the caller). -/
def bDel : Box → String → Box
  | [], _ => []
  | (k, w) :: rest, key => if k = key then rest else (k, w) :: bDel rest key

/-- Model of Python dict.update(other): assign every entry of the other
dict, in order (src/main.py line 124). -/
def bUpdate : Box → Box → Box
  | b, [] => b
  | b, kv :: rest => bUpdate (bSet b kv.1 kv.2) rest

/-- Python exception outcomes of the pipeline. -/
inductive PyErr where
  | keyError : String → PyErr
  | attrError : PyErr
  | typeError : PyErr
  | valueError : PyErr
  | pyExc : String → PyErr
deriving DecidableEq

/-! ### Constants of src/main.py -/

/-- The twelve month abbreviations (src/main.py line 31). -/
def MONTHS : List String :=
  ["Jan", "Feb", "Mar", "Apr", "May", "Jun", "Jul", "Aug", "Sep", "Oct", "Nov", "Dec"]

/-- The recognized parameters of the completeness check and the removal
loop (src/main.py lines 139-141 and 146-148). -/
def PARAMS : List String :=
  ["high C", "high F", "mean C", "mean F", "low C", "low F",
   "humidity", "sun", "precipitation days", "precipitation mm", "precipitation inch",
   "record high C", "record high F", "record low C", "record low F"]

/-- The month-parameter field name, as Python formats month, space,
parameter. -/
def monthKey (m p : String) : String := m ++ " " ++ p

/-! ### Stage A: numeric coercion (src/main.py lines 125-136) -/

/-- One key of the coercion loop body: if the key contains the month
token followed by a space and the raw text is non-blank after stripping,
parse the normalized text as a float and assign it back; a parse failure
is caught and leaves the entry unchanged.  Calling strip on a non-string
value raises an uncaught AttributeError. -/
def coerceKey (m : String) (b : Box) (k : String) : Except PyErr Box :=
  if tok m k then
    match bGet? b k with
    | some (Value.str s) =>
      if pyStrip s ≠ "" then
        match pyFloat (pyNormalize s) with
        | some q => Except.ok (bSet b k (Value.num q))
        | none => Except.ok b
      else Except.ok b
    | some _ => Except.error PyErr.attrError
    | none => Except.ok b
  else Except.ok b

/-- The inner loop over the record's keys for one month. -/
def coerceKeys (m : String) : Box → List String → Except PyErr Box
  | b, [] => Except.ok b
  | b, k :: ks =>
    match coerceKey m b k with
    | Except.ok b1 => coerceKeys m b1 ks
    | Except.error e => Except.error e

/-- The outer loop over the twelve months. -/
def coerceMonths : Box → List String → Except PyErr Box
  | b, [] => Except.ok b
  | b, m :: ms =>
    match coerceKeys m b (b.map Prod.fst) with
    | Except.ok b1 => coerceMonths b1 ms
    | Except.error e => Except.error e

/-- Stage A as a whole. -/
def coerceStage (b : Box) : Except PyErr Box := coerceMonths b MONTHS

/-! ### Stage B first half: completeness check (src/main.py lines 138-143) -/

/-- The list built by the check's comprehension: one membership Boolean
per month (src/main.py line 142). -/
def presenceFlags (b : Box) (p : String) : List Bool :=
  MONTHS.map (fun m => bHas b (monthKey m p))

/-- The completeness check loop: raise unless the length of the
comprehension list is 0 or 12. -/
def checkParams (b : Box) : List String → Except PyErr Unit
  | [] => Except.ok ()
  | p :: ps =>
    if (presenceFlags b p).length = 0 ∨ (presenceFlags b p).length = 12 then checkParams b ps
    else Except.error (PyErr.pyExc ("Parameter " ++ p ++ " do not have all the months"))

/-- The completeness check stage. -/
def checkStage (b : Box) : Except PyErr Box :=
  match checkParams b PARAMS with
  | Except.ok _ => Except.ok b
  | Except.error e => Except.error e

/-! ### Stage B second half: remove non-float data (src/main.py lines 145-154) -/

/-- Python's type test against float. -/
def isFloatV : Value → Bool
  | Value.num _ => true
  | _ => false

/-- Model of the all generator of src/main.py line 151: short-circuit scan
of the twelve month values; a missing key raises KeyError. -/
def allFloats (b : Box) (p : String) : List String → Except PyErr Bool
  | [] => Except.ok true
  | m :: ms =>
    match bGet? b (monthKey m p) with
    | none => Except.error (PyErr.keyError (monthKey m p))
    | some v => if isFloatV v then allFloats b p ms else Except.ok false

/-- The deletion loop of src/main.py lines 153-154; Python del raises
KeyError on an absent key. -/
def delMonths (p : String) : Box → List String → Except PyErr Box
  | b, [] => Except.ok b
  | b, m :: ms =>
    if bHas b (monthKey m p) then delMonths p (bDel b (monthKey m p)) ms
    else Except.error (PyErr.keyError (monthKey m p))

/-- The removal loop over the recognized parameters: skip when the
January field is absent; otherwise keep the parameter when all twelve
values are floats and delete all twelve fields when not. -/
def removeParams : Box → List String → Except PyErr Box
  | b, [] => Except.ok b
  | b, p :: ps =>
    if bHas b (monthKey "Jan" p) then
      match allFloats b p MONTHS with
      | Except.error e => Except.error e
      | Except.ok true => removeParams b ps
      | Except.ok false =>
        match delMonths p b MONTHS with
        | Except.error e => Except.error e
        | Except.ok b1 => removeParams b1 ps
    else removeParams b ps

/-- The removal stage. -/
def removalStage (b : Box) : Except PyErr Box := removeParams b PARAMS

/-! ### Stage C: imperial to metric conversion (src/main.py lines 156-163) -/

/-- The conversion table of src/main.py lines 157-158. -/
def CONV_PARAMS : List (String × (ℚ → ℚ)) :=
  [("high F", f2c), ("mean F", f2c), ("low F", f2c),
   ("record high F", f2c), ("record low F", f2c), ("precipitation inch", i2mm)]

/-- Conversion of the twelve months of one parameter in place, each value
rounded to one decimal; a missing key raises KeyError, and applying the
conversion arithmetic to a string raises TypeError. -/
def convMonths (f : ℚ → ℚ) (p : String) : Box → List String → Except PyErr Box
  | b, [] => Except.ok b
  | b, m :: ms =>
    match bGet? b (monthKey m p) with
    | none => Except.error (PyErr.keyError (monthKey m p))
    | some (Value.num q) =>
      convMonths f p (bSet b (monthKey m p) (Value.num (round1 (f q)))) ms
    | some (Value.intv z) =>
      convMonths f p (bSet b (monthKey m p) (Value.num (round1 (f (qOf z 1))))) ms
    | some (Value.str _) => Except.error PyErr.typeError

/-- The conversion loop over the imperial parameters, skipping a
parameter whose January field is absent. -/
def convParams : Box → List (String × (ℚ → ℚ)) → Except PyErr Box
  | b, [] => Except.ok b
  | b, pf :: ps =>
    if bHas b (monthKey "Jan" pf.1) then
      match convMonths pf.2 pf.1 b MONTHS with
      | Except.error e => Except.error e
      | Except.ok b1 => convParams b1 ps
    else convParams b ps

/-- The conversion stage. -/
def convStage (b : Box) : Except PyErr Box := convParams b CONV_PARAMS

/-! ### Stage D: yearly aggregation (src/main.py lines 165-172) -/

/-- The aggregation table of src/main.py lines 166-168. -/
def AGG_PARAMS : List (String × (List ℚ → ℚ)) :=
  [("high C", month_avg), ("mean C", month_avg), ("low C", month_avg), ("humidity", month_avg),
   ("sun", qsum), ("precipitation days", qsum), ("precipitation mm", qsum),
   ("record high C", pymax), ("record low C", pymin)]

/-- The list comprehension of the twelve month values of one parameter;
a missing key raises KeyError, and a string value makes the aggregation
arithmetic raise TypeError. -/
def getFloats (b : Box) (p : String) : List String → Except PyErr (List ℚ)
  | [] => Except.ok []
  | m :: ms =>
    match bGet? b (monthKey m p) with
    | none => Except.error (PyErr.keyError (monthKey m p))
    | some (Value.num q) =>
      match getFloats b p ms with
      | Except.ok qs => Except.ok (q :: qs)
      | Except.error e => Except.error e
    | some (Value.intv z) =>
      match getFloats b p ms with
      | Except.ok qs => Except.ok (qOf z 1 :: qs)
      | Except.error e => Except.error e
    | some (Value.str _) => Except.error PyErr.typeError

/-- The aggregation loop: for each parameter of the table whose January
field is present, store the rounded aggregate under a year field. -/
def aggParams : Box → List (String × (List ℚ → ℚ)) → Except PyErr Box
  | b, [] => Except.ok b
  | b, pg :: ps =>
    if bHas b (monthKey "Jan" pg.1) then
      match getFloats b pg.1 MONTHS with
      | Except.error e => Except.error e
      | Except.ok qs => aggParams (bSet b ("year " ++ pg.1) (Value.num (round1 (pg.2 qs)))) ps
    else aggParams b ps

/-- The aggregation stage. -/
def aggStage (b : Box) : Except PyErr Box := aggParams b AGG_PARAMS

/-! ### Stage E: standard deviation (src/main.py lines 174-179) -/

/-- The parameter subset of the standard-deviation loop. -/
def STDEV_PARAMS : List String :=
  ["mean C", "humidity", "sun", "precipitation days", "precipitation mm"]

/-- The standard-deviation loop: for each parameter of the subset whose
January field is present, store the rounded population standard
deviation under a year stdev field. -/
def stdevParams : Box → List String → Except PyErr Box
  | b, [] => Except.ok b
  | b, p :: ps =>
    if bHas b (monthKey "Jan" p) then
      match getFloats b p MONTHS with
      | Except.error e => Except.error e
      | Except.ok qs =>
        stdevParams (bSet b ("year " ++ p ++ " stdev") (Value.num (pstdevR1 qs))) ps
    else stdevParams b ps

/-- The standard-deviation stage. -/
def stdevStage (b : Box) : Except PyErr Box := stdevParams b STDEV_PARAMS

/-! ### The infobox locator (src/main.py lines 68-97) -/

/-- A wiki page: its page id (0 means the page does not exist) and its
extracted template invocations, each a template name with a field map of
raw text values. -/
structure Page where
  pageid : Nat
  templates : List (String × List (String × String))

/-- The external wiki site: a total map from page titles to pages. -/
abbrev Env := String → Page

/-- One city binding of the query result (src/main.py lines 12-27): the
value fields the program reads. -/
structure City where
  city : String
  cityLabel : String
  population : String
  countryLabel : String
  article : String
  gps : String

/-- The first template literally named Weather box, if any
(src/main.py line 81). -/
def findWeatherBox (ts : List (String × List (String × String))) :
    Option (List (String × String)) :=
  (ts.find? (fun t => t.1 = "Weather box")).map Prod.snd

/-- The first template whose name contains the substring weatherbox, if
any (src/main.py line 84). -/
def findWeatherTemplate (ts : List (String × List (String × String))) : Option String :=
  (ts.find? (fun t => isSubstrOf "weatherbox".toList t.1.toList)).map Prod.fst

/-- Model of get_weather_box (src/main.py lines 68-97): resolve the
city's article (page id 0 raises), look for a direct Weather box, else
follow a weatherbox template indirection (whose template page id 0 also
raises); a missing weather box is the non-raising none outcome. -/
def get_weather_box (env : Env) (c : City) : Except PyErr (Option (List (String × String))) :=
  match reWikiTitle c.article with
  | none => Except.error PyErr.attrError
  | some title =>
    let page := env title
    if page.pageid = 0 then Except.error (PyErr.pyExc "page do not exist")
    else
      match findWeatherBox page.templates with
      | some wb => Except.ok (some wb)
      | none =>
        match findWeatherTemplate page.templates with
        | none => Except.ok none
        | some tname =>
          let page2 := env ("Template: " ++ tname)
          if page2.pageid = 0 then Except.error (PyErr.pyExc "page do not exist")
          else Except.ok (findWeatherBox page2.templates)

/-! ### The normalizer and the ingestion loop (src/main.py lines 100-194) -/

/-- The basic box of src/main.py lines 110-116: the six identity fields,
with the int and float conversions whose failure is a fatal ValueError
and the regex group calls whose failure is a fatal AttributeError. -/
def basic_box (c : City) : Except PyErr Box :=
  match pyInt c.population with
  | none => Except.error PyErr.valueError
  | some pop =>
    match reLatGroup c.gps with
    | none => Except.error PyErr.attrError
    | some latTxt =>
      match pyFloat latTxt with
      | none => Except.error PyErr.valueError
      | some lat =>
        match reLonGroup c.gps with
        | none => Except.error PyErr.attrError
        | some lonTxt =>
          match pyFloat lonTxt with
          | none => Except.error PyErr.valueError
          | some lon =>
            Except.ok [("name", Value.str c.cityLabel),
                       ("population", Value.intv pop),
                       ("country", Value.str c.countryLabel),
                       ("city_wd", Value.str c.city),
                       ("gps_lat", Value.num lat),
                       ("gps_lon", Value.num lon)]

/-- The raw infobox as a record of string values. -/
def rawToBox (raw : List (String × String)) : Box :=
  raw.map (fun kv => (kv.1, Value.str kv.2))

/-- Stages A through E in the source's order. -/
def normalizeBox (b : Box) : Except PyErr Box :=
  match coerceStage b with
  | Except.error e => Except.error e
  | Except.ok b1 =>
    match checkStage b1 with
    | Except.error e => Except.error e
    | Except.ok b2 =>
      match removalStage b2 with
      | Except.error e => Except.error e
      | Except.ok b3 =>
        match convStage b3 with
        | Except.error e => Except.error e
        | Except.ok b4 =>
          match aggStage b4 with
          | Except.error e => Except.error e
          | Except.ok b5 => stdevStage b5

/-- The document store: the cities collection as a list of records in
insertion order. -/
abbrev DB := List Box

/-- Model of process_city (src/main.py lines 100-180): build the basic
box, locate the weather box, insert the basic box alone when none is
found, otherwise merge the identity fields into the infobox, run the
normalization stages and insert the result. -/
def process_city (env : Env) (c : City) (db : DB) : Except PyErr DB :=
  match basic_box c with
  | Except.error e => Except.error e
  | Except.ok bb =>
    match get_weather_box env c with
    | Except.error e => Except.error e
    | Except.ok none => Except.ok (db ++ [bb])
    | Except.ok (some raw) =>
      match normalizeBox (bUpdate (rawToBox raw) bb) with
      | Except.error e => Except.error e
      | Except.ok r => Except.ok (db ++ [r])

/-- Model of the find_one existence check of src/main.py line 190: some
record's city_wd field equals the candidate's external identifier. -/
def inDB (db : DB) (c : City) : Bool :=
  db.any (fun r => bGet? r "city_wd" == some (Value.str c.city))

/-- Model of process_cities (src/main.py lines 183-194): process the
candidates in order, skipping one already in the store; an exception
from processing one city aborts the whole run. -/
def process_cities (env : Env) : DB → List City → Except PyErr DB
  | db, [] => Except.ok db
  | db, c :: cs =>
    if inDB db c then process_cities env db cs
    else
      match process_city env c db with
      | Except.error e => Except.error e
      | Except.ok db1 => process_cities env db1 cs

/-! ### Concrete fixtures for witnesses and counterexamples -/

/-- A concrete candidate row: Belgrade, with the Wikidata point text in
longitude-first order. -/
def cityBelgrade : City :=
  ⟨"http://www.wikidata.org/entity/Q3711", "Belgrade", "1166763", "Serbia",
   "https://en.wikipedia.org/wiki/Belgrade", "Point(20.46 44.81)"⟩

/-- A site whose Belgrade article has a weather box holding a single
February value: a partially present parameter. -/
def envFebOnly : Env := fun t =>
  if t = "Belgrade" then ⟨7, [("Infobox city", []), ("Weather box", [("Feb high C", "5.0")])]⟩
  else ⟨0, []⟩

/-- A site whose Belgrade article has a weather box holding exactly the
twelve monthly Fahrenheit highs and nothing else. -/
def envHighF : Env := fun t =>
  if t = "Belgrade" then ⟨7, [("Weather box",
    [("Jan high F", "32.0"), ("Feb high F", "50"), ("Mar high F", "212.0"),
     ("Apr high F", "50"), ("May high F", "50"), ("Jun high F", "50"),
     ("Jul high F", "50"), ("Aug high F", "50"), ("Sep high F", "50"),
     ("Oct high F", "50"), ("Nov high F", "50"), ("Dec high F", "50")])]⟩
  else ⟨0, []⟩

/-- A site where the Belgrade article exists without any weather box, and
carries a weatherbox template reference whose template page is missing. -/
def envDanglingTemplate : Env := fun t =>
  if t = "Belgrade" then ⟨7, [("Belgrade weatherbox", [])]⟩
  else ⟨0, []⟩

/-- A site where the Belgrade article exists and has no weather box and
no weatherbox template at all. -/
def envNoBox : Env := fun t =>
  if t = "Belgrade" then ⟨7, [("Infobox city", [])]⟩
  else ⟨0, []⟩

/-- A store holding one record whose city_wd field is Belgrade's
external identifier. -/
def dbBelgrade : DB := [[("city_wd", Value.str "http://www.wikidata.org/entity/Q3711")]]

/-- A float-valued optional lookup (decidable probe used in statements). -/
def isNumO : Option Value → Bool
  | some v => isFloatV v
  | none => false

/-- A record holding the value 5.0 for all twelve months of high C. -/
def boxC6 : Box := MONTHS.map (fun m => (monthKey m "high C", Value.num (qOf 5 1)))

/-- A record holding the value 50.0 for all twelve months of high F. -/
def boxC4 : Box := MONTHS.map (fun m => (monthKey m "high F", Value.num (qOf 50 1)))

/-- A site whose Belgrade article has a weather box that redefines the
identity field name and adds an unrelated field. -/
def envNameClash : Env := fun t =>
  if t = "Belgrade" then ⟨7, [("Weather box", [("name", "WRONG"), ("note", "x")])]⟩
  else ⟨0, []⟩

/-- The record inserted for Belgrade under envNameClash: the infobox
field name is overwritten by the candidate's display name. -/
def rNameClash : Box :=
  [("name", Value.str "Belgrade"), ("note", Value.str "x"),
   ("population", Value.intv 1166763), ("country", Value.str "Serbia"),
   ("city_wd", Value.str "http://www.wikidata.org/entity/Q3711"),
   ("gps_lat", Value.num (qOf 1023 50)), ("gps_lon", Value.num (qOf 4481 100))]

/-- A raw merged record holding the text 5.0 for the twelve months of
high C, as after the identity merge and before coercion. -/
def boxC1W : Box := MONTHS.map (fun m => (monthKey m "high C", Value.str "5.0"))

/-- The per-month raw texts of the envHighF weather box. -/
def valsC2 : String → String := fun m =>
  if m = "Jan" then "32.0" else if m = "Mar" then "212.0" else "50"

/-- The per-month parsed values of the envHighF weather box. -/
def qvC2 : String → ℚ := fun m =>
  if m = "Jan" then qOf 32 1 else if m = "Mar" then qOf 212 1 else qOf 50 1

/-- The basic box of the Belgrade candidate. -/
def bbBelgrade : Box :=
  [("name", Value.str "Belgrade"), ("population", Value.intv 1166763),
   ("country", Value.str "Serbia"),
   ("city_wd", Value.str "http://www.wikidata.org/entity/Q3711"),
   ("gps_lat", Value.num (qOf 1023 50)), ("gps_lon", Value.num (qOf 4481 100))]

/-! ## Theorems -/

/-! ### Association-list lemmas for Python dict semantics -/

theorem bGet?_bSet_self (b : Box) (k : String) (v : Value) :
    bGet? (bSet b k v) k = some v := by
  induction b with
  | nil => simp [bSet, bGet?]
  | cons kv rest ih =>
    by_cases h : kv.1 = k
    · simp [bSet, bGet?, h]
    · simpa [bSet, bGet?, h] using ih

theorem bGet?_bSet_ne (b : Box) (k : String) (v : Value) (k1 : String) (h : k1 ≠ k) :
    bGet? (bSet b k v) k1 = bGet? b k1 := by
  have h2 : ¬ (k = k1) := fun he => h he.symm
  induction b with
  | nil => simp [bSet, bGet?, h2]
  | cons kv rest ih =>
    by_cases hk : kv.1 = k
    · subst hk
      simp [bSet, bGet?, h2]
    · by_cases hk1 : kv.1 = k1 <;> simp [bSet, bGet?, hk, hk1, h, ih]

theorem bGet?_bDel_ne (b : Box) (k : String) (k1 : String) (h : k1 ≠ k) :
    bGet? (bDel b k) k1 = bGet? b k1 := by
  have h2 : ¬ (k = k1) := fun he => h he.symm
  induction b with
  | nil => simp [bDel]
  | cons kv rest ih =>
    by_cases hk : kv.1 = k
    · subst hk
      simp [bDel, bGet?, h2]
    · by_cases hk1 : kv.1 = k1 <;> simp [bDel, bGet?, hk, hk1, h, ih]

theorem bGet?_eq_none_of_not_mem (b : Box) (k : String) (h : k ∉ b.map Prod.fst) :
    bGet? b k = none := by
  induction b with
  | nil => rfl
  | cons kv rest ih =>
    simp only [List.map_cons, List.mem_cons] at h
    push_neg at h
    have h1 : ¬ (kv.1 = k) := fun he => h.1 he.symm
    simp [bGet?, h1, ih h.2]

theorem keys_bDel_sublist (b : Box) (k : String) :
    ((bDel b k).map Prod.fst).Sublist (b.map Prod.fst) := by
  induction b with
  | nil => simp [bDel]
  | cons kv rest ih =>
    by_cases hk : kv.1 = k
    · simp only [bDel, hk, if_pos rfl, List.map_cons]
      exact (List.sublist_cons_self _ _)
    · simpa [bDel, hk] using ih.cons₂ kv.1

theorem nodup_keys_bDel (b : Box) (k : String) (h : (b.map Prod.fst).Nodup) :
    ((bDel b k).map Prod.fst).Nodup :=
  (keys_bDel_sublist b k).nodup h

theorem bGet?_bDel_self (b : Box) (k : String) (h : (b.map Prod.fst).Nodup) :
    bGet? (bDel b k) k = none := by
  induction b with
  | nil => rfl
  | cons kv rest ih =>
    simp only [List.map_cons, List.nodup_cons] at h
    by_cases hk : kv.1 = k
    · subst hk
      simpa [bDel] using bGet?_eq_none_of_not_mem rest kv.1 h.1
    · simp [bDel, bGet?, hk, ih h.2]

theorem keys_bSet_of_has (b : Box) (k : String) (v : Value) (h : bHas b k = true) :
    (bSet b k v).map Prod.fst = b.map Prod.fst := by
  induction b with
  | nil => simp [bHas, bGet?] at h
  | cons kv rest ih =>
    by_cases hk : kv.1 = k
    · simp [bSet, hk]
    · have h1 : bHas rest k = true := by
        simpa [bHas, bGet?, hk] using h
      simp [bSet, hk, ih h1]

theorem bHas_bSet_self (b : Box) (k : String) (v : Value) : bHas (bSet b k v) k = true := by
  simp [bHas, bGet?_bSet_self]

theorem bHas_bSet_ne (b : Box) (k : String) (v : Value) (k1 : String) (h : k1 ≠ k) :
    bHas (bSet b k v) k1 = bHas b k1 := by
  simp [bHas, bGet?_bSet_ne b k v k1 h]

/-! ### Field-name lemmas -/

theorem month_data_len : ∀ m ∈ MONTHS, m.data.length = 3 := by decide

theorem string_data_append (a b : String) : (a ++ b).data = a.data ++ b.data := by
  cases a; cases b; rfl

theorem monthKey_data (m p : String) : (monthKey m p).data = m.data ++ ' ' :: p.data := by
  rw [monthKey, string_data_append, string_data_append]
  have hs : (" " : String).data = [' '] := by decide
  rw [hs, List.append_assoc]
  rfl

theorem monthKey_inj {m1 m2 p1 p2 : String}
    (h1 : m1.data.length = 3) (h2 : m2.data.length = 3)
    (he : monthKey m1 p1 = monthKey m2 p2) : m1 = m2 ∧ p1 = p2 := by
  have hd : m1.data ++ ' ' :: p1.data = m2.data ++ ' ' :: p2.data := by
    rw [← monthKey_data, ← monthKey_data, he]
  have hm : m1.data = m2.data := by
    have h3 := congrArg (List.take 3) hd
    rwa [List.take_left' h1, List.take_left' h2] at h3
  constructor
  · cases m1; cases m2; exact congrArg String.mk hm
  · have hd2 : m1.data ++ ' ' :: p1.data = m1.data ++ ' ' :: p2.data := by
      rw [hd, hm]
    have hp : ' ' :: p1.data = ' ' :: p2.data := List.append_cancel_left hd2
    have hp2 : p1.data = p2.data := by
      injection hp
    cases p1; cases p2; exact congrArg String.mk hp2

theorem isSubstrOf_of_isPrefixOf (pat s : List Char) (h : pat.isPrefixOf s = true) :
    isSubstrOf pat s = true := by
  cases s with
  | nil =>
    have : pat = [] := by
      cases pat with
      | nil => rfl
      | cons c cs => simp [List.isPrefixOf] at h
    simp [isSubstrOf, this]
  | cons c rest => simp [isSubstrOf, h]

theorem tok_monthKey_self (m p : String) : tok m (monthKey m p) = true := by
  apply isSubstrOf_of_isPrefixOf
  have hx : (monthKey m p).toList = (m ++ " ").toList ++ p.toList := by
    show (monthKey m p).data = (m ++ " ").data ++ p.data
    rw [monthKey_data, string_data_append]
    have hs : (" " : String).data = [' '] := by decide
    rw [hs, List.append_assoc]
    rfl
  rw [hx, List.isPrefixOf_iff_prefix]
  exact List.prefix_append _ _

theorem ne_monthKey_of_not_tok {k m p : String} (ht : tok m k = false) :
    k ≠ monthKey m p := by
  intro he
  rw [he, tok_monthKey_self] at ht
  cases ht

theorem yearKey_ne_monthKey (p m p1 : String) (hm : m.data.length = 3) :
    "year " ++ p ≠ monthKey m p1 := by
  intro he
  have hd : ("year " : String).data ++ p.data = m.data ++ ' ' :: p1.data := by
    rw [← string_data_append, he, monthKey_data]
  have hy : ("year " : String).data = ['y', 'e', 'a', 'r', ' '] := by decide
  rw [hy] at hd
  have h4 := congrArg (fun l => l[3]?) hd
  have hl : (['y', 'e', 'a', 'r', ' '] ++ p.data)[3]? = some 'r' := rfl
  have hr : (m.data ++ ' ' :: p1.data)[3]? = some ' ' := by
    rw [List.getElem?_append_right (by omega), hm]
    norm_num
  simp only [hl, hr] at h4
  cases h4

theorem yearKey_inj {p1 p2 : String} (pre : String) (he : pre ++ p1 = pre ++ p2) :
    p1 = p2 := by
  have hd : pre.data ++ p1.data = pre.data ++ p2.data := by
    rw [← string_data_append, ← string_data_append, he]
  have hp := List.append_cancel_left hd
  cases p1; cases p2; exact congrArg String.mk hp

/-! ### Helper lemmas about the completeness check -/

theorem presenceFlags_length (b : Box) (p : String) : (presenceFlags b p).length = 12 := by
  simp [presenceFlags, MONTHS]

theorem checkParams_ok (b : Box) : ∀ ps, checkParams b ps = Except.ok () := by
  intro ps
  induction ps with
  | nil => rfl
  | cons p ps ih => simp [checkParams, presenceFlags_length, ih]

theorem checkStage_ok (b : Box) : checkStage b = Except.ok b := by
  simp [checkStage, checkParams_ok]

/-! ### Claim theorems -/

/-- C10: the completeness-validation exception branch is unreachable for
every possible weather box: the tested value is the length of a list
comprehension over the twelve months, which is always 12, so the check
never raises and never rejects a partially-present parameter. -/
theorem completeness_check_unreachable :
    ∀ (b : Box) (p : String),
      (presenceFlags b p).length = 12 ∧
      checkParams b [p] = Except.ok () ∧
      checkStage b = Except.ok b := by
  intro b p
  refine ⟨presenceFlags_length b p, ?_, checkStage_ok b⟩
  simp [checkParams, presenceFlags_length]

/-- C3 records a code bug: for the point text Point(20.46 44.81), whose
first coordinate 20.46 is the longitude and second coordinate 44.81 the
latitude, the first regex group (the text before the last whitespace)
is 20.46 and the second group (the text after the first whitespace) is
44.81, so the record's gps_lat field receives the longitude 20.46 and
its gps_lon field the latitude 44.81 — swapped with respect to the
claim. -/
theorem gps_lat_holds_longitude :
    reLatGroup "Point(20.46 44.81)" = some "20.46" ∧
    reLonGroup "Point(20.46 44.81)" = some "44.81" ∧
    (basic_box cityBelgrade).map (fun b =>
      bGet? b "gps_lat" == some (Value.num (qOf 1023 50)) &&
      bGet? b "gps_lon" == some (Value.num (qOf 4481 100))) = Except.ok true :=
  ⟨by decide, by decide, by decide⟩

/-- C8: a candidate whose external identifier already matches a record in
the store is skipped without any write, and re-running ingestion over a
store already containing every candidate performs zero writes. -/
theorem ingestion_skips_existing :
    (∀ (env : Env) (c : City) (cs : List City) (db : DB),
        inDB db c = true → process_cities env db (c :: cs) = process_cities env db cs) ∧
    (∀ (env : Env) (cs : List City) (db : DB),
        (∀ c ∈ cs, inDB db c = true) → process_cities env db cs = Except.ok db) := by
  constructor
  · intro env c cs db h
    simp [process_cities, h]
  · intro env cs
    induction cs with
    | nil => intro db _; rfl
    | cons c cs ih =>
      intro db h
      have hc : inDB db c = true := h c (List.mem_cons_self c cs)
      rw [process_cities, if_pos hc]
      exact ih db (fun c1 h1 => h c1 (List.mem_cons_of_mem c h1))

/-- C8 witness: a store already containing Belgrade's external id is
returned unchanged by a re-run over the Belgrade candidate. -/
theorem ingestion_skips_existing_witness :
    process_cities envNoBox dbBelgrade [cityBelgrade] = Except.ok dbBelgrade :=
  ingestion_skips_existing.2 envNoBox [cityBelgrade] dbBelgrade (by decide)

/-- C7: the infobox locator raises its fatal error exactly when a
referenced page resolves to page id zero — the candidate's own article,
or the Template page of a discovered weatherbox template — whereas a
resolved page without any Weather box returns the absent outcome without
raising; and such an error from processing one candidate aborts the whole
run regardless of the remaining candidates. -/
theorem locator_fatal_iff (env : Env) (c : City) (title : String)
    (ht : reWikiTitle c.article = some title) :
    (get_weather_box env c = Except.error (PyErr.pyExc "page do not exist") ↔
      ((env title).pageid = 0 ∨
        (findWeatherBox (env title).templates = none ∧
         ∃ tn, findWeatherTemplate (env title).templates = some tn ∧
               (env ("Template: " ++ tn)).pageid = 0))) ∧
    ((env title).pageid ≠ 0 → findWeatherBox (env title).templates = none →
      findWeatherTemplate (env title).templates = none →
      get_weather_box env c = Except.ok none) ∧
    (∀ (e : PyErr) (db : DB) (cs : List City), inDB db c = false →
      process_city env c db = Except.error e →
      process_cities env db (c :: cs) = Except.error e) := by
  refine ⟨?_, ?_, ?_⟩
  · rw [get_weather_box, ht]
    by_cases h0 : (env title).pageid = 0
    · simp only [h0, if_pos rfl]
      exact ⟨fun _ => Or.inl trivial, fun _ => rfl⟩
    · simp only [if_neg h0]
      cases hfb : findWeatherBox (env title).templates with
      | some wb =>
        simp only [hfb]
        constructor
        · intro hc; cases hc
        · rintro (hc | ⟨hnone, _⟩)
          · exact absurd hc h0
          · cases hnone
      | none =>
        simp only [hfb]
        cases hft : findWeatherTemplate (env title).templates with
        | none =>
          simp only [hft]
          constructor
          · intro hc; cases hc
          · rintro (hc | ⟨_, tn, htn, _⟩)
            · exact absurd hc h0
            · cases htn
        | some tn =>
          simp only [hft]
          by_cases h2 : (env ("Template: " ++ tn)).pageid = 0
          · simp only [h2, if_pos rfl]
            exact ⟨fun _ => Or.inr ⟨trivial, tn, rfl, h2⟩, fun _ => rfl⟩
          · simp only [if_neg h2]
            constructor
            · intro hc; cases hc
            · rintro (hc | ⟨_, tn1, htn1, h21⟩)
              · exact absurd hc h0
              · rw [show tn1 = tn from (Option.some_inj.mp htn1).symm] at h21
                exact absurd h21 h2
  · intro h0 hfb hft
    rw [get_weather_box, ht]
    simp [if_neg h0, hfb, hft]
  · intro e db cs hin hpc
    rw [process_cities, if_neg (by rw [hin]; exact Bool.false_ne_true), hpc]

/-- C7 witness: a weatherbox template whose Template page does not exist
is fatal, exercised on a concrete site. -/
theorem locator_fatal_iff_witness :
    get_weather_box envDanglingTemplate cityBelgrade =
      Except.error (PyErr.pyExc "page do not exist") :=
  ((locator_fatal_iff envDanglingTemplate cityBelgrade "Belgrade" (by decide)).1).mpr
    (Or.inr ⟨by decide, "Belgrade weatherbox", by decide, by decide⟩)

/-! ### Aggregator semantics -/

theorem qsum_foldl (xs : List ℚ) : ∀ a : ℚ, xs.foldl qadd a = a + xs.sum := by
  induction xs with
  | nil => intro a; simp
  | cons x xs ih => intro a; simp [List.foldl_cons, qadd_eq, ih, add_assoc]

theorem qsum_eq (xs : List ℚ) : qsum xs = xs.sum := by
  rw [qsum, qsum_foldl, qOf_eq]
  norm_num

theorem month_avg_sum (xs : List ℚ) : month_avg xs = xs.sum / 12 := by
  rw [month_avg_eq, qsum_eq]

theorem pymax_foldl (x : ℚ) (xs : List ℚ) : pymax (x :: xs) = xs.foldl max x := by
  rw [pymax]
  congr 1
  funext a b
  rcases lt_or_ge a b with h | h
  · rw [if_pos h, max_eq_right h.le]
  · rw [if_neg (not_lt.mpr h), max_eq_left h]

theorem pymin_foldl (x : ℚ) (xs : List ℚ) : pymin (x :: xs) = xs.foldl min x := by
  rw [pymin]
  congr 1
  funext a b
  rcases lt_or_ge b a with h | h
  · rw [if_pos h, min_eq_right h.le]
  · rw [if_neg (not_lt.mpr h), min_eq_left h]

/-! ### Month-key distinctness over the month list -/

theorem months_pairwise_keys (p : String) :
    MONTHS.Pairwise (fun a c => monthKey a p ≠ monthKey c p) := by
  have hne : MONTHS.Pairwise (fun a c => a ≠ c) := by decide
  refine hne.imp_of_mem ?_
  intro a c ha hc hac he
  exact hac (monthKey_inj (month_data_len a ha) (month_data_len c hc) he).1

/-! ### Reading the twelve month values -/

theorem getFloats_map (b : Box) (p : String) (qf : String → ℚ) :
    ∀ ms, (∀ m ∈ ms, bGet? b (monthKey m p) = some (Value.num (qf m))) →
      getFloats b p ms = Except.ok (ms.map qf) := by
  intro ms
  induction ms with
  | nil => intro _; rfl
  | cons m ms ih =>
    intro h
    have hm := h m (List.mem_cons_self m ms)
    have ht := ih (fun m1 h1 => h m1 (List.mem_cons_of_mem m h1))
    simp [getFloats, hm, ht]

theorem getFloats_isNum (b : Box) (p : String) :
    ∀ ms, (∀ m ∈ ms, isNumO (bGet? b (monthKey m p)) = true) →
      ∃ qs, getFloats b p ms = Except.ok qs := by
  intro ms
  induction ms with
  | nil => intro _; exact ⟨[], rfl⟩
  | cons m ms ih =>
    intro h
    have hm := h m (List.mem_cons_self m ms)
    obtain ⟨qs, hqs⟩ := ih (fun m1 h1 => h m1 (List.mem_cons_of_mem m h1))
    cases hg : bGet? b (monthKey m p) with
    | none => rw [hg] at hm; simp [isNumO] at hm
    | some v =>
      cases v with
      | num q => exact ⟨q :: qs, by simp [getFloats, hg, hqs]⟩
      | str s => rw [hg] at hm; simp [isNumO, isFloatV] at hm
      | intv z => rw [hg] at hm; simp [isNumO, isFloatV] at hm

/-! ### The aggregation loop -/

theorem aggParams_run :
    ∀ (ps : List (String × (List ℚ → ℚ))) (b : Box),
      (∀ pg ∈ ps, bHas b (monthKey "Jan" pg.1) = true →
        ∀ m ∈ MONTHS, isNumO (bGet? b (monthKey m pg.1)) = true) →
      ∃ b1, aggParams b ps = Except.ok b1 ∧
        ∀ k, (∀ pg ∈ ps, k ≠ "year " ++ pg.1) → bGet? b1 k = bGet? b k := by
  intro ps
  induction ps with
  | nil => intro b _; exact ⟨b, rfl, fun k _ => rfl⟩
  | cons pg ps ih =>
    intro b hall
    by_cases hj : bHas b (monthKey "Jan" pg.1) = true
    · have hnums := hall pg (List.mem_cons_self pg ps) hj
      obtain ⟨qs, hqs⟩ := getFloats_isNum b pg.1 MONTHS hnums
      have hall' : ∀ pg1 ∈ ps,
          bHas (bSet b ("year " ++ pg.1) (Value.num (round1 (pg.2 qs))))
            (monthKey "Jan" pg1.1) = true →
          ∀ m ∈ MONTHS, isNumO
            (bGet? (bSet b ("year " ++ pg.1) (Value.num (round1 (pg.2 qs))))
              (monthKey m pg1.1)) = true := by
        intro pg1 h1 hj1 m hm
        have hne : monthKey m pg1.1 ≠ "year " ++ pg.1 :=
          (yearKey_ne_monthKey pg.1 m pg1.1 (month_data_len m hm)).symm
        have hnej : monthKey "Jan" pg1.1 ≠ "year " ++ pg.1 :=
          (yearKey_ne_monthKey pg.1 "Jan" pg1.1 (month_data_len "Jan" (by decide))).symm
        rw [bGet?_bSet_ne _ _ _ _ hne]
        rw [bHas_bSet_ne _ _ _ _ hnej] at hj1
        exact hall pg1 (List.mem_cons_of_mem pg h1) hj1 m hm
      obtain ⟨b1, hrun, hframe⟩ :=
        ih (bSet b ("year " ++ pg.1) (Value.num (round1 (pg.2 qs)))) hall'
      refine ⟨b1, ?_, ?_⟩
      · simp [aggParams, hj, hqs, hrun]
      · intro k hk
        have h1 := hframe k (fun pg1 h1 => hk pg1 (List.mem_cons_of_mem pg h1))
        rw [h1, bGet?_bSet_ne _ _ _ _ (hk pg (List.mem_cons_self pg ps))]
    · have hjf : bHas b (monthKey "Jan" pg.1) = false := by
        simpa using hj
      obtain ⟨b1, hrun, hframe⟩ := ih b (fun pg1 h1 => hall pg1 (List.mem_cons_of_mem pg h1))
      exact ⟨b1, by simp [aggParams, hjf, hrun],
        fun k hk => hframe k (fun pg1 h1 => hk pg1 (List.mem_cons_of_mem pg h1))⟩

theorem aggParams_target :
    ∀ (ps : List (String × (List ℚ → ℚ))) (b : Box) (p : String) (g : List ℚ → ℚ)
      (qf : String → ℚ),
      (p, g) ∈ ps →
      (ps.map Prod.fst).Nodup →
      (∀ pg ∈ ps, bHas b (monthKey "Jan" pg.1) = true →
        ∀ m ∈ MONTHS, isNumO (bGet? b (monthKey m pg.1)) = true) →
      (∀ m ∈ MONTHS, bGet? b (monthKey m p) = some (Value.num (qf m))) →
      ∃ b1, aggParams b ps = Except.ok b1 ∧
        bGet? b1 ("year " ++ p) = some (Value.num (round1 (g (MONTHS.map qf)))) := by
  intro ps
  induction ps with
  | nil => intro b p g qf hmem; cases hmem
  | cons pg ps ih =>
    intro b p g qf hmem hnd hall hq
    rcases List.mem_cons.mp hmem with heq | htail
    · subst heq
      have hj : bHas b (monthKey "Jan" p) = true := by
        rw [bHas, hq "Jan" (by decide)]
        rfl
      have hgf : getFloats b p MONTHS = Except.ok (MONTHS.map qf) :=
        getFloats_map b p qf MONTHS hq
      have hall' : ∀ pg1 ∈ ps,
          bHas (bSet b ("year " ++ p) (Value.num (round1 (g (MONTHS.map qf)))))
            (monthKey "Jan" pg1.1) = true →
          ∀ m ∈ MONTHS, isNumO
            (bGet? (bSet b ("year " ++ p) (Value.num (round1 (g (MONTHS.map qf)))))
              (monthKey m pg1.1)) = true := by
        intro pg1 h1 hj1 m hm
        have hne : monthKey m pg1.1 ≠ "year " ++ p :=
          (yearKey_ne_monthKey p m pg1.1 (month_data_len m hm)).symm
        have hnej : monthKey "Jan" pg1.1 ≠ "year " ++ p :=
          (yearKey_ne_monthKey p "Jan" pg1.1 (month_data_len "Jan" (by decide))).symm
        rw [bGet?_bSet_ne _ _ _ _ hne]
        rw [bHas_bSet_ne _ _ _ _ hnej] at hj1
        exact hall pg1 (List.mem_cons_of_mem _ h1) hj1 m hm
      obtain ⟨b1, hrun, hframe⟩ :=
        aggParams_run ps (bSet b ("year " ++ p) (Value.num (round1 (g (MONTHS.map qf))))) hall'
      refine ⟨b1, by simp [aggParams, hj, hgf, hrun], ?_⟩
      have hfresh : ∀ pg1 ∈ ps, ("year " ++ p : String) ≠ "year " ++ pg1.1 := by
        intro pg1 h1 he
        have hp : p = pg1.1 := yearKey_inj "year " he
        simp only [List.map_cons, List.nodup_cons] at hnd
        exact hnd.1 (hp ▸ List.mem_map_of_mem Prod.fst h1)
      rw [hframe _ hfresh, bGet?_bSet_self]
    · simp only [List.map_cons, List.nodup_cons] at hnd
      by_cases hj : bHas b (monthKey "Jan" pg.1) = true
      · have hnums := hall pg (List.mem_cons_self pg ps) hj
        obtain ⟨qs, hqs⟩ := getFloats_isNum b pg.1 MONTHS hnums
        have hall' : ∀ pg1 ∈ ps,
            bHas (bSet b ("year " ++ pg.1) (Value.num (round1 (pg.2 qs))))
              (monthKey "Jan" pg1.1) = true →
            ∀ m ∈ MONTHS, isNumO
              (bGet? (bSet b ("year " ++ pg.1) (Value.num (round1 (pg.2 qs))))
                (monthKey m pg1.1)) = true := by
          intro pg1 h1 hj1 m hm
          have hne : monthKey m pg1.1 ≠ "year " ++ pg.1 :=
            (yearKey_ne_monthKey pg.1 m pg1.1 (month_data_len m hm)).symm
          have hnej : monthKey "Jan" pg1.1 ≠ "year " ++ pg.1 :=
            (yearKey_ne_monthKey pg.1 "Jan" pg1.1 (month_data_len "Jan" (by decide))).symm
          rw [bGet?_bSet_ne _ _ _ _ hne]
          rw [bHas_bSet_ne _ _ _ _ hnej] at hj1
          exact hall pg1 (List.mem_cons_of_mem _ h1) hj1 m hm
        have hq' : ∀ m ∈ MONTHS,
            bGet? (bSet b ("year " ++ pg.1) (Value.num (round1 (pg.2 qs))))
              (monthKey m p) = some (Value.num (qf m)) := by
          intro m hm
          rw [bGet?_bSet_ne _ _ _ _
            ((yearKey_ne_monthKey pg.1 m p (month_data_len m hm)).symm)]
          exact hq m hm
        obtain ⟨b1, hrun, hval⟩ :=
          ih (bSet b ("year " ++ pg.1) (Value.num (round1 (pg.2 qs)))) p g qf htail hnd.2
            hall' hq'
        exact ⟨b1, by simp [aggParams, hj, hqs, hrun], hval⟩
      · have hjf : bHas b (monthKey "Jan" pg.1) = false := by simpa using hj
        obtain ⟨b1, hrun, hval⟩ :=
          ih b p g qf htail hnd.2 (fun pg1 h1 => hall pg1 (List.mem_cons_of_mem pg h1)) hq
        exact ⟨b1, by simp [aggParams, hjf, hrun], hval⟩

/-- C6: for every parameter of the aggregation table whose twelve float
months are present, the aggregation stage adds a year field equal, after
rounding to one decimal, to the aggregate of the twelve monthly values;
and the table's aggregators have the stated semantics: month_avg is the
sum divided by the constant 12, the sum aggregator is the list sum, and
the record aggregators are the fold of max respectively min. -/
theorem yearly_aggregation (b : Box) (p : String) (g : List ℚ → ℚ) (qf : String → ℚ)
    (hpg : (p, g) ∈ AGG_PARAMS)
    (hall : ∀ pg ∈ AGG_PARAMS, bHas b (monthKey "Jan" pg.1) = true →
      ∀ m ∈ MONTHS, isNumO (bGet? b (monthKey m pg.1)) = true)
    (hq : ∀ m ∈ MONTHS, bGet? b (monthKey m p) = some (Value.num (qf m))) :
    (∃ b1, aggStage b = Except.ok b1 ∧
      bGet? b1 ("year " ++ p) = some (Value.num (round1 (g (MONTHS.map qf))))) ∧
    (∀ xs : List ℚ, month_avg xs = xs.sum / 12) ∧
    (∀ xs : List ℚ, qsum xs = xs.sum) ∧
    (∀ (x : ℚ) (xs : List ℚ), pymax (x :: xs) = xs.foldl max x) ∧
    (∀ (x : ℚ) (xs : List ℚ), pymin (x :: xs) = xs.foldl min x) := by
  refine ⟨?_, month_avg_sum, qsum_eq, pymax_foldl, pymin_foldl⟩
  have hnd : (AGG_PARAMS.map Prod.fst).Nodup := by decide
  exact aggParams_target AGG_PARAMS b p g qf hpg hnd hall hq

/-- C6 witness: a record with the value 5.0 for the twelve months of
high C receives the year high C value 5.0, the rounded mean. -/
theorem yearly_aggregation_witness :
    (∃ b1, aggStage boxC6 = Except.ok b1 ∧
      bGet? b1 ("year " ++ "high C") =
        some (Value.num (round1 (month_avg (MONTHS.map (fun _ => qOf 5 1)))))) ∧
    (∀ xs : List ℚ, month_avg xs = xs.sum / 12) ∧
    (∀ xs : List ℚ, qsum xs = xs.sum) ∧
    (∀ (x : ℚ) (xs : List ℚ), pymax (x :: xs) = xs.foldl max x) ∧
    (∀ (x : ℚ) (xs : List ℚ), pymin (x :: xs) = xs.foldl min x) :=
  yearly_aggregation boxC6 "high C" month_avg (fun _ => qOf 5 1)
    (by simp [AGG_PARAMS]) (by decide) (by decide)

/-! ### The conversion loop -/

theorem convMonths_spec (f : ℚ → ℚ) (p : String) :
    ∀ (ms : List String) (b : Box),
      ms.Pairwise (fun a c => monthKey a p ≠ monthKey c p) →
      (∀ m ∈ ms, ∃ q, bGet? b (monthKey m p) = some (Value.num q)) →
      ∃ b1, convMonths f p b ms = Except.ok b1 ∧
        (∀ k, (∀ m ∈ ms, k ≠ monthKey m p) → bGet? b1 k = bGet? b k) ∧
        (∀ m ∈ ms, ∀ q, bGet? b (monthKey m p) = some (Value.num q) →
          bGet? b1 (monthKey m p) = some (Value.num (round1 (f q)))) := by
  intro ms
  induction ms with
  | nil => intro b _ _; exact ⟨b, rfl, fun k _ => rfl, fun m hm => absurd hm (by simp)⟩
  | cons m0 ms ih =>
    intro b hpw hq
    obtain ⟨h01, hpw'⟩ := List.pairwise_cons.mp hpw
    obtain ⟨q0, hq0⟩ := hq m0 (List.mem_cons_self m0 ms)
    have hq' : ∀ m ∈ ms, ∃ q,
        bGet? (bSet b (monthKey m0 p) (Value.num (round1 (f q0)))) (monthKey m p) =
          some (Value.num q) := by
      intro m hm
      rw [bGet?_bSet_ne _ _ _ _ (h01 m hm).symm]
      exact hq m (List.mem_cons_of_mem m0 hm)
    obtain ⟨b1, hrun, hframe, hvals⟩ :=
      ih (bSet b (monthKey m0 p) (Value.num (round1 (f q0)))) hpw' hq'
    refine ⟨b1, by simp [convMonths, hq0, hrun], ?_, ?_⟩
    · intro k hk
      rw [hframe k (fun m hm => hk m (List.mem_cons_of_mem m0 hm)),
        bGet?_bSet_ne _ _ _ _ (hk m0 (List.mem_cons_self m0 ms))]
    · intro m hm q hbq
      rcases List.mem_cons.mp hm with heq | htail
      · subst heq
        have hqq : q = q0 := by
          rw [hq0] at hbq
          exact (Value.num.inj (Option.some_inj.mp hbq)).symm ▸ rfl
        subst hqq
        rw [hframe _ h01, bGet?_bSet_self]
      · have hbq' : bGet? (bSet b (monthKey m0 p) (Value.num (round1 (f q0))))
            (monthKey m p) = some (Value.num q) := by
          rw [bGet?_bSet_ne _ _ _ _ (h01 m htail).symm]
          exact hbq
        exact hvals m htail q hbq'

theorem convMonths_pres (f : ℚ → ℚ) (p : String) (ms : List String) (b b1 : Box)
    (hpw : ms.Pairwise (fun a c => monthKey a p ≠ monthKey c p))
    (hq : ∀ m ∈ ms, ∃ q, bGet? b (monthKey m p) = some (Value.num q))
    (hrun : convMonths f p b ms = Except.ok b1) :
    (∀ k, isNumO (bGet? b k) = true → isNumO (bGet? b1 k) = true) ∧
    (∀ k, bHas b1 k = bHas b k) := by
  obtain ⟨b2, hrun2, hframe, hvals⟩ := convMonths_spec f p ms b hpw hq
  rw [hrun2] at hrun
  cases hrun
  constructor
  · intro k hk
    by_cases hmem : ∃ m ∈ ms, k = monthKey m p
    · obtain ⟨m, hm, rfl⟩ := hmem
      obtain ⟨q, hbq⟩ := hq m hm
      rw [hvals m hm q hbq]
      rfl
    · push_neg at hmem
      rw [hframe k hmem]
      exact hk
  · intro k
    by_cases hmem : ∃ m ∈ ms, k = monthKey m p
    · obtain ⟨m, hm, rfl⟩ := hmem
      obtain ⟨q, hbq⟩ := hq m hm
      rw [bHas, bHas, hbq, hvals m hm q hbq]
      rfl
    · push_neg at hmem
      rw [bHas, bHas, hframe k hmem]

theorem convParams_run :
    ∀ (ps : List (String × (ℚ → ℚ))) (b : Box),
      (∀ pf ∈ ps, bHas b (monthKey "Jan" pf.1) = true →
        ∀ m ∈ MONTHS, isNumO (bGet? b (monthKey m pf.1)) = true) →
      ∃ b1, convParams b ps = Except.ok b1 ∧
        (∀ k, (∀ pf ∈ ps, ∀ m ∈ MONTHS, k ≠ monthKey m pf.1) → bGet? b1 k = bGet? b k) ∧
        (∀ k, isNumO (bGet? b k) = true → isNumO (bGet? b1 k) = true) ∧
        (∀ k, bHas b1 k = bHas b k) := by
  intro ps
  induction ps with
  | nil => intro b _; exact ⟨b, rfl, fun k _ => rfl, fun _ h => h, fun _ => rfl⟩
  | cons pf ps ih =>
    intro b hall
    by_cases hj : bHas b (monthKey "Jan" pf.1) = true
    · have hnums := hall pf (List.mem_cons_self pf ps) hj
      have hq : ∀ m ∈ MONTHS, ∃ q, bGet? b (monthKey m pf.1) = some (Value.num q) := by
        intro m hm
        have h1 := hnums m hm
        cases hg : bGet? b (monthKey m pf.1) with
        | none => rw [hg] at h1; simp [isNumO] at h1
        | some v =>
          cases v with
          | num q => exact ⟨q, rfl⟩
          | str s => rw [hg] at h1; simp [isNumO, isFloatV] at h1
          | intv z => rw [hg] at h1; simp [isNumO, isFloatV] at h1
      obtain ⟨b2, hrun2, hframe2, hvals2⟩ :=
        convMonths_spec pf.2 pf.1 MONTHS b (months_pairwise_keys pf.1) hq
      obtain ⟨hnum2, hhas2⟩ := convMonths_pres pf.2 pf.1 MONTHS b b2
        (months_pairwise_keys pf.1) hq hrun2
      have hall' : ∀ pf1 ∈ ps, bHas b2 (monthKey "Jan" pf1.1) = true →
          ∀ m ∈ MONTHS, isNumO (bGet? b2 (monthKey m pf1.1)) = true := by
        intro pf1 h1 hj1 m hm
        rw [hhas2] at hj1
        exact hnum2 _ (hall pf1 (List.mem_cons_of_mem pf h1) hj1 m hm)
      obtain ⟨b1, hrun, hframe, hnum, hhas⟩ := ih b2 hall'
      refine ⟨b1, by simp [convParams, hj, hrun2, hrun], ?_, ?_, ?_⟩
      · intro k hk
        rw [hframe k (fun pf1 h1 => hk pf1 (List.mem_cons_of_mem pf h1)),
          hframe2 k (fun m hm => hk pf (List.mem_cons_self pf ps) m hm)]
      · intro k hk
        exact hnum k (hnum2 k hk)
      · intro k
        rw [hhas k, hhas2 k]
    · have hjf : bHas b (monthKey "Jan" pf.1) = false := by simpa using hj
      obtain ⟨b1, hrun, hframe, hnum, hhas⟩ :=
        ih b (fun pf1 h1 => hall pf1 (List.mem_cons_of_mem pf h1))
      exact ⟨b1, by simp [convParams, hjf, hrun],
        fun k hk => hframe k (fun pf1 h1 => hk pf1 (List.mem_cons_of_mem pf h1)), hnum, hhas⟩

theorem convParams_target :
    ∀ (ps : List (String × (ℚ → ℚ))) (b : Box) (p : String) (f : ℚ → ℚ) (qf : String → ℚ),
      (p, f) ∈ ps →
      (ps.map Prod.fst).Nodup →
      (∀ pf ∈ ps, bHas b (monthKey "Jan" pf.1) = true →
        ∀ m ∈ MONTHS, isNumO (bGet? b (monthKey m pf.1)) = true) →
      (∀ m ∈ MONTHS, bGet? b (monthKey m p) = some (Value.num (qf m))) →
      ∃ b1, convParams b ps = Except.ok b1 ∧
        ∀ m ∈ MONTHS, bGet? b1 (monthKey m p) = some (Value.num (round1 (f (qf m)))) := by
  intro ps
  induction ps with
  | nil => intro b p f qf hmem; cases hmem
  | cons pf ps ih =>
    intro b p f qf hmem hnd hall hq
    simp only [List.map_cons, List.nodup_cons] at hnd
    rcases List.mem_cons.mp hmem with heq | htail
    · subst heq
      have hj : bHas b (monthKey "Jan" p) = true := by
        rw [bHas, hq "Jan" (by decide)]
        rfl
      have hqe : ∀ m ∈ MONTHS, ∃ q, bGet? b (monthKey m p) = some (Value.num q) :=
        fun m hm => ⟨qf m, hq m hm⟩
      obtain ⟨b2, hrun2, hframe2, hvals2⟩ :=
        convMonths_spec f p MONTHS b (months_pairwise_keys p) hqe
      obtain ⟨hnum2, hhas2⟩ := convMonths_pres f p MONTHS b b2 (months_pairwise_keys p) hqe hrun2
      have hall' : ∀ pf1 ∈ ps, bHas b2 (monthKey "Jan" pf1.1) = true →
          ∀ m ∈ MONTHS, isNumO (bGet? b2 (monthKey m pf1.1)) = true := by
        intro pf1 h1 hj1 m hm
        rw [hhas2] at hj1
        exact hnum2 _ (hall pf1 (List.mem_cons_of_mem _ h1) hj1 m hm)
      obtain ⟨b1, hrun, hframe, _, _⟩ := convParams_run ps b2 hall'
      refine ⟨b1, by simp [convParams, hj, hrun2, hrun], ?_⟩
      intro m hm
      have hne : ∀ pf1 ∈ ps, ∀ m1 ∈ MONTHS, monthKey m p ≠ monthKey m1 pf1.1 := by
        intro pf1 h1 m1 hm1 he
        have hp := (monthKey_inj (month_data_len m hm) (month_data_len m1 hm1) he).2
        have hmem2 : pf1.1 ∈ ps.map Prod.fst := List.mem_map_of_mem Prod.fst h1
        rw [← hp] at hmem2
        exact hnd.1 hmem2
      rw [hframe _ hne]
      exact hvals2 m hm (qf m) (hq m hm)
    · by_cases hj : bHas b (monthKey "Jan" pf.1) = true
      · have hnums := hall pf (List.mem_cons_self pf ps) hj
        have hqe : ∀ m ∈ MONTHS, ∃ q, bGet? b (monthKey m pf.1) = some (Value.num q) := by
          intro m hm
          have h1 := hnums m hm
          cases hg : bGet? b (monthKey m pf.1) with
          | none => rw [hg] at h1; simp [isNumO] at h1
          | some v =>
            cases v with
            | num q => exact ⟨q, rfl⟩
            | str s => rw [hg] at h1; simp [isNumO, isFloatV] at h1
            | intv z => rw [hg] at h1; simp [isNumO, isFloatV] at h1
        obtain ⟨b2, hrun2, hframe2, hvals2⟩ :=
          convMonths_spec pf.2 pf.1 MONTHS b (months_pairwise_keys pf.1) hqe
        obtain ⟨hnum2, hhas2⟩ :=
          convMonths_pres pf.2 pf.1 MONTHS b b2 (months_pairwise_keys pf.1) hqe hrun2
        have hall' : ∀ pf1 ∈ ps, bHas b2 (monthKey "Jan" pf1.1) = true →
            ∀ m ∈ MONTHS, isNumO (bGet? b2 (monthKey m pf1.1)) = true := by
          intro pf1 h1 hj1 m hm
          rw [hhas2] at hj1
          exact hnum2 _ (hall pf1 (List.mem_cons_of_mem pf h1) hj1 m hm)
        have hq' : ∀ m ∈ MONTHS, bGet? b2 (monthKey m p) = some (Value.num (qf m)) := by
          intro m hm
          have hne : ∀ m1 ∈ MONTHS, monthKey m p ≠ monthKey m1 pf.1 := by
            intro m1 hm1 he
            have hp := (monthKey_inj (month_data_len m hm) (month_data_len m1 hm1) he).2
            have h2 : p ∈ ps.map Prod.fst := List.mem_map_of_mem Prod.fst htail
            rw [hp] at h2
            exact hnd.1 h2
          rw [hframe2 _ hne]
          exact hq m hm
        obtain ⟨b1, hrun, hvals⟩ := ih b2 p f qf htail hnd.2 hall' hq'
        exact ⟨b1, by simp [convParams, hj, hrun2, hrun], hvals⟩
      · have hjf : bHas b (monthKey "Jan" pf.1) = false := by simpa using hj
        obtain ⟨b1, hrun, hvals⟩ :=
          ih b p f qf htail hnd.2 (fun pf1 h1 => hall pf1 (List.mem_cons_of_mem pf h1)) hq
        exact ⟨b1, by simp [convParams, hjf, hrun], hvals⟩

/-- C4: for every Fahrenheit parameter of the conversion table and for
inch precipitation, when the twelve float months are present each monthly
value v is replaced in place under the same field name by the rounded
conversion — round to one decimal of (v - 32) / 1.8 for Fahrenheit and
of v * 25.4 for inches — leaving unrelated fields unchanged; in
particular 32.0 Fahrenheit maps to 0.0, 212.0 Fahrenheit to 100.0, and
1.0 inch to 25.4 millimeters. -/
theorem imperial_conversion (b : Box) (p : String) (f : ℚ → ℚ) (qf : String → ℚ)
    (hpf : (p, f) ∈ CONV_PARAMS)
    (hall : ∀ pf ∈ CONV_PARAMS, bHas b (monthKey "Jan" pf.1) = true →
      ∀ m ∈ MONTHS, isNumO (bGet? b (monthKey m pf.1)) = true)
    (hq : ∀ m ∈ MONTHS, bGet? b (monthKey m p) = some (Value.num (qf m))) :
    (∃ b1, convStage b = Except.ok b1 ∧
      (∀ m ∈ MONTHS, bGet? b1 (monthKey m p) = some (Value.num (round1 (f (qf m))))) ∧
      (∀ k, (∀ pf ∈ CONV_PARAMS, ∀ m ∈ MONTHS, k ≠ monthKey m pf.1) →
        bGet? b1 k = bGet? b k)) ∧
    (∀ v : ℚ, f2c v = (v - 32) / 1.8) ∧
    (∀ v : ℚ, i2mm v = v * 25.4) ∧
    round1 (f2c 32) = 0 ∧ round1 (f2c 212) = 100 ∧ round1 (i2mm 1) = 25.4 := by
  refine ⟨?_, f2c_eq, i2mm_eq, by decide, ?_, ?_⟩
  · have hnd : (CONV_PARAMS.map Prod.fst).Nodup := by decide
    obtain ⟨b1, hrun, hvals⟩ := convParams_target CONV_PARAMS b p f qf hpf hnd hall hq
    obtain ⟨b2, hrun2, hframe2, _, _⟩ := convParams_run CONV_PARAMS b hall
    rw [hrun2] at hrun
    cases hrun
    exact ⟨b1, hrun2, hvals, hframe2⟩
  · have h1 : round1 (f2c 212) = qOf 100 1 := by decide
    rw [h1, qOf_eq]
    norm_num
  · have h1 : round1 (i2mm 1) = qOf 254 10 := by decide
    rw [h1, qOf_eq]
    norm_num

/-- C4 witness: a record with 50.0 Fahrenheit for the twelve months of
high F is converted in place to 10.0 Celsius per month. -/
theorem imperial_conversion_witness :
    (∃ b1, convStage boxC4 = Except.ok b1 ∧
      (∀ m ∈ MONTHS, bGet? b1 (monthKey m "high F") =
        some (Value.num (round1 (f2c (qOf 50 1))))) ∧
      (∀ k, (∀ pf ∈ CONV_PARAMS, ∀ m ∈ MONTHS, k ≠ monthKey m pf.1) →
        bGet? b1 k = bGet? boxC4 k)) ∧
    (∀ v : ℚ, f2c v = (v - 32) / 1.8) ∧
    (∀ v : ℚ, i2mm v = v * 25.4) ∧
    round1 (f2c 32) = 0 ∧ round1 (f2c 212) = 100 ∧ round1 (i2mm 1) = 25.4 :=
  imperial_conversion boxC4 "high F" f2c (fun _ => qOf 50 1)
    (by simp [CONV_PARAMS]) (by decide) (by decide)

/-! ### Frame lemmas: stages leave token-free and year-free keys alone -/

theorem coerceKey_pres {m k kk : String} {b b1 : Box}
    (hkk : tok m kk = false) (h : coerceKey m b k = Except.ok b1) :
    bGet? b1 kk = bGet? b kk := by
  rw [coerceKey] at h
  split at h
  · rename_i htk
    have hne : kk ≠ k := by
      intro he
      rw [he, htk] at hkk
      cases hkk
    split at h
    · split at h
      · split at h
        · cases h
          exact bGet?_bSet_ne _ _ _ _ hne
        · cases h
          rfl
      · cases h
        rfl
    · cases h
    · cases h
      rfl
  · cases h
    rfl

theorem coerceKeys_pres {m kk : String} (hkk : tok m kk = false) :
    ∀ (ks : List String) (b b1 : Box), coerceKeys m b ks = Except.ok b1 →
      bGet? b1 kk = bGet? b kk := by
  intro ks
  induction ks with
  | nil => intro b b1 h; cases h; rfl
  | cons k ks ih =>
    intro b b1 h
    rw [coerceKeys] at h
    cases hck : coerceKey m b k with
    | error e => rw [hck] at h; cases h
    | ok b2 =>
      rw [hck] at h
      rw [ih b2 b1 h, coerceKey_pres hkk hck]

theorem coerceMonths_pres {kk : String} :
    ∀ (ms : List String), (∀ m ∈ ms, tok m kk = false) →
      ∀ (b b1 : Box), coerceMonths b ms = Except.ok b1 → bGet? b1 kk = bGet? b kk := by
  intro ms
  induction ms with
  | nil => intro _ b b1 h; cases h; rfl
  | cons m ms ih =>
    intro hms b b1 h
    rw [coerceMonths] at h
    cases hck : coerceKeys m b (b.map Prod.fst) with
    | error e => rw [hck] at h; cases h
    | ok b2 =>
      rw [hck] at h
      rw [ih (fun m1 h1 => hms m1 (List.mem_cons_of_mem m h1)) b2 b1 h,
        coerceKeys_pres (hms m (List.mem_cons_self m ms)) _ b b2 hck]

theorem delMonths_pres {kk p : String} :
    ∀ (ms : List String), (∀ m ∈ ms, kk ≠ monthKey m p) →
      ∀ (b b1 : Box), delMonths p b ms = Except.ok b1 → bGet? b1 kk = bGet? b kk := by
  intro ms
  induction ms with
  | nil => intro _ b b1 h; cases h; rfl
  | cons m ms ih =>
    intro hms b b1 h
    rw [delMonths] at h
    by_cases hhas : bHas b (monthKey m p) = true
    · rw [if_pos hhas] at h
      rw [ih (fun m1 h1 => hms m1 (List.mem_cons_of_mem m h1)) _ b1 h,
        bGet?_bDel_ne _ _ _ (hms m (List.mem_cons_self m ms))]
    · rw [if_neg hhas] at h
      cases h

theorem removeParams_pres {kk : String} (hkk : ∀ m ∈ MONTHS, tok m kk = false) :
    ∀ (ps : List String) (b b1 : Box), removeParams b ps = Except.ok b1 →
      bGet? b1 kk = bGet? b kk := by
  intro ps
  induction ps with
  | nil => intro b b1 h; cases h; rfl
  | cons p ps ih =>
    intro b b1 h
    rw [removeParams] at h
    by_cases hj : bHas b (monthKey "Jan" p) = true
    · rw [if_pos hj] at h
      cases haf : allFloats b p MONTHS with
      | error e => rw [haf] at h; cases h
      | ok flag =>
        rw [haf] at h
        cases flag with
        | true => exact ih b b1 h
        | false =>
          cases hdel : delMonths p b MONTHS with
          | error e => rw [hdel] at h; cases h
          | ok b2 =>
            rw [hdel] at h
            rw [ih b2 b1 h,
              delMonths_pres MONTHS (fun m hm => ne_monthKey_of_not_tok (hkk m hm)) b b2 hdel]
    · rw [if_neg hj] at h
      exact ih b b1 h

theorem convMonths_pres_nokey {kk p : String} (f : ℚ → ℚ) :
    ∀ (ms : List String), (∀ m ∈ ms, kk ≠ monthKey m p) →
      ∀ (b b1 : Box), convMonths f p b ms = Except.ok b1 → bGet? b1 kk = bGet? b kk := by
  intro ms
  induction ms with
  | nil => intro _ b b1 h; cases h; rfl
  | cons m ms ih =>
    intro hms b b1 h
    rw [convMonths] at h
    cases hg : bGet? b (monthKey m p) with
    | none => rw [hg] at h; cases h
    | some v =>
      rw [hg] at h
      cases v with
      | str s => cases h
      | num q =>
        rw [ih (fun m1 h1 => hms m1 (List.mem_cons_of_mem m h1)) _ b1 h,
          bGet?_bSet_ne _ _ _ _ (hms m (List.mem_cons_self m ms))]
      | intv z =>
        rw [ih (fun m1 h1 => hms m1 (List.mem_cons_of_mem m h1)) _ b1 h,
          bGet?_bSet_ne _ _ _ _ (hms m (List.mem_cons_self m ms))]

theorem convParams_pres {kk : String} (hkk : ∀ m ∈ MONTHS, tok m kk = false) :
    ∀ (ps : List (String × (ℚ → ℚ))) (b b1 : Box), convParams b ps = Except.ok b1 →
      bGet? b1 kk = bGet? b kk := by
  intro ps
  induction ps with
  | nil => intro b b1 h; cases h; rfl
  | cons pf ps ih =>
    intro b b1 h
    rw [convParams] at h
    by_cases hj : bHas b (monthKey "Jan" pf.1) = true
    · rw [if_pos hj] at h
      cases hcm : convMonths pf.2 pf.1 b MONTHS with
      | error e => rw [hcm] at h; cases h
      | ok b2 =>
        rw [hcm] at h
        rw [ih b2 b1 h,
          convMonths_pres_nokey pf.2 MONTHS
            (fun m hm => ne_monthKey_of_not_tok (hkk m hm)) b b2 hcm]
    · rw [if_neg hj] at h
      exact ih b b1 h

theorem aggParams_pres {kk : String} :
    ∀ (ps : List (String × (List ℚ → ℚ))), (∀ pg ∈ ps, kk ≠ "year " ++ pg.1) →
      ∀ (b b1 : Box), aggParams b ps = Except.ok b1 → bGet? b1 kk = bGet? b kk := by
  intro ps
  induction ps with
  | nil => intro _ b b1 h; cases h; rfl
  | cons pg ps ih =>
    intro hps b b1 h
    rw [aggParams] at h
    by_cases hj : bHas b (monthKey "Jan" pg.1) = true
    · rw [if_pos hj] at h
      cases hgf : getFloats b pg.1 MONTHS with
      | error e => rw [hgf] at h; cases h
      | ok qs =>
        rw [hgf] at h
        rw [ih (fun pg1 h1 => hps pg1 (List.mem_cons_of_mem pg h1)) _ b1 h,
          bGet?_bSet_ne _ _ _ _ (hps pg (List.mem_cons_self pg ps))]
    · rw [if_neg hj] at h
      exact ih (fun pg1 h1 => hps pg1 (List.mem_cons_of_mem pg h1)) b b1 h

theorem stdevParams_pres {kk : String} :
    ∀ (ps : List String), (∀ p ∈ ps, kk ≠ "year " ++ p ++ " stdev") →
      ∀ (b b1 : Box), stdevParams b ps = Except.ok b1 → bGet? b1 kk = bGet? b kk := by
  intro ps
  induction ps with
  | nil => intro _ b b1 h; cases h; rfl
  | cons p ps ih =>
    intro hps b b1 h
    rw [stdevParams] at h
    by_cases hj : bHas b (monthKey "Jan" p) = true
    · rw [if_pos hj] at h
      cases hgf : getFloats b p MONTHS with
      | error e => rw [hgf] at h; cases h
      | ok qs =>
        rw [hgf] at h
        rw [ih (fun p1 h1 => hps p1 (List.mem_cons_of_mem p h1)) _ b1 h,
          bGet?_bSet_ne _ _ _ _ (hps p (List.mem_cons_self p ps))]
    · rw [if_neg hj] at h
      exact ih (fun p1 h1 => hps p1 (List.mem_cons_of_mem p h1)) b b1 h

theorem normalizeBox_pres {kk : String} {b b1 : Box}
    (hkk : ∀ m ∈ MONTHS, tok m kk = false)
    (hy : ∀ pg ∈ AGG_PARAMS, kk ≠ "year " ++ pg.1)
    (hs : ∀ p ∈ STDEV_PARAMS, kk ≠ "year " ++ p ++ " stdev")
    (hrun : normalizeBox b = Except.ok b1) :
    bGet? b1 kk = bGet? b kk := by
  rw [normalizeBox] at hrun
  cases h1 : coerceStage b with
  | error e => simp only [h1] at hrun; cases hrun
  | ok c1 =>
    simp only [h1, checkStage_ok c1] at hrun
    cases h3 : removalStage c1 with
    | error e => simp only [h3] at hrun; cases hrun
    | ok c3 =>
      simp only [h3] at hrun
      cases h4 : convStage c3 with
      | error e => simp only [h4] at hrun; cases hrun
      | ok c4 =>
        simp only [h4] at hrun
        cases h5 : aggStage c4 with
        | error e => simp only [h5] at hrun; cases hrun
        | ok c5 =>
          simp only [h5] at hrun
          rw [stdevParams_pres STDEV_PARAMS hs c5 b1 hrun,
            aggParams_pres AGG_PARAMS hy c4 c5 h5,
            convParams_pres hkk CONV_PARAMS c3 c4 h4,
            removeParams_pres hkk PARAMS c1 c3 h3,
            coerceMonths_pres MONTHS hkk b c1 h1]

/-! ### The basic box and the identity merge -/

theorem basic_box_fields (c : City) (bb : Box) (h : basic_box c = Except.ok bb) :
    ∃ pop lat lon, pyInt c.population = some pop ∧
      bb = [("name", Value.str c.cityLabel), ("population", Value.intv pop),
            ("country", Value.str c.countryLabel), ("city_wd", Value.str c.city),
            ("gps_lat", Value.num lat), ("gps_lon", Value.num lon)] := by
  rw [basic_box] at h
  split at h
  · cases h
  · rename_i pop hp
    split at h
    · cases h
    · rename_i latTxt hla
      split at h
      · cases h
      · rename_i lat hlaf
        split at h
        · cases h
        · rename_i lonTxt hlo
          split at h
          · cases h
          · rename_i lon hlof
            cases h
            exact ⟨pop, lat, lon, hp, rfl⟩

theorem bUpdate_get_not_mem :
    ∀ (vs b : Box) (kk : String), kk ∉ vs.map Prod.fst →
      bGet? (bUpdate b vs) kk = bGet? b kk := by
  intro vs
  induction vs with
  | nil => intro b kk _; rfl
  | cons kv vs ih =>
    intro b kk hkk
    simp only [List.map_cons, List.mem_cons] at hkk
    push_neg at hkk
    rw [bUpdate, ih _ _ hkk.2, bGet?_bSet_ne _ _ _ _ hkk.1]

theorem bUpdate_get_mem :
    ∀ (vs b : Box) (k : String) (v : Value),
      (k, v) ∈ vs → (vs.map Prod.fst).Nodup →
      bGet? (bUpdate b vs) k = some v := by
  intro vs
  induction vs with
  | nil => intro b k v hmem; cases hmem
  | cons kv vs ih =>
    intro b k v hmem hnd
    simp only [List.map_cons, List.nodup_cons] at hnd
    rcases List.mem_cons.mp hmem with heq | htail
    · subst heq
      rw [bUpdate, bUpdate_get_not_mem vs _ k hnd.1, bGet?_bSet_self]
    · rw [bUpdate]
      exact ih _ k v htail hnd.2

/-- C9: every record inserted for a processed candidate, with or without
a located infobox, carries all six identity fields taken from the
candidate, overriding any identically-named fields of the raw infobox,
because the identity map is merged into the infobox map after it and the
normalization stages never touch token-free, year-free field names. -/
theorem identity_fields_inserted (env : Env) (c : City) (db db1 : DB)
    (hrun : process_city env c db = Except.ok db1) :
    ∃ r pop lat lon, db1 = db ++ [r] ∧
      pyInt c.population = some pop ∧
      bGet? r "name" = some (Value.str c.cityLabel) ∧
      bGet? r "population" = some (Value.intv pop) ∧
      bGet? r "country" = some (Value.str c.countryLabel) ∧
      bGet? r "city_wd" = some (Value.str c.city) ∧
      bGet? r "gps_lat" = some (Value.num lat) ∧
      bGet? r "gps_lon" = some (Value.num lon) := by
  rw [process_city] at hrun
  cases hbb : basic_box c with
  | error e => simp only [hbb] at hrun; cases hrun
  | ok bb =>
    simp only [hbb] at hrun
    obtain ⟨pop, lat, lon, hpop, hbbv⟩ := basic_box_fields c bb hbb
    cases hwb : get_weather_box env c with
    | error e => simp only [hwb] at hrun; cases hrun
    | ok wb =>
      simp only [hwb] at hrun
      cases wb with
      | none =>
        cases hrun
        refine ⟨bb, pop, lat, lon, rfl, hpop, ?_, ?_, ?_, ?_, ?_, ?_⟩ <;>
          rw [hbbv] <;> rfl
      | some raw =>
        cases hnb : normalizeBox (bUpdate (rawToBox raw) bb) with
        | error e => simp only [hnb] at hrun; cases hrun
        | ok r =>
          simp only [hnb] at hrun
          cases hrun
          have hfield : ∀ (kk : String) (v : Value),
              (∀ m ∈ MONTHS, tok m kk = false) →
              (∀ pg ∈ AGG_PARAMS, kk ≠ "year " ++ pg.1) →
              (∀ p ∈ STDEV_PARAMS, kk ≠ "year " ++ p ++ " stdev") →
              (kk, v) ∈ bb →
              bGet? r kk = some v := by
            intro kk v hkk hy hs hmem
            rw [normalizeBox_pres hkk hy hs hnb]
            refine bUpdate_get_mem bb (rawToBox raw) kk v hmem ?_
            rw [hbbv]
            simp
          refine ⟨r, pop, lat, lon, rfl, hpop, ?_, ?_, ?_, ?_, ?_, ?_⟩
          · exact hfield "name" _ (by decide) (by decide) (by decide) (by rw [hbbv]; simp)
          · exact hfield "population" _ (by decide) (by decide) (by decide) (by rw [hbbv]; simp)
          · exact hfield "country" _ (by decide) (by decide) (by decide) (by rw [hbbv]; simp)
          · exact hfield "city_wd" _ (by decide) (by decide) (by decide) (by rw [hbbv]; simp)
          · exact hfield "gps_lat" _ (by decide) (by decide) (by decide) (by rw [hbbv]; simp)
          · exact hfield "gps_lon" _ (by decide) (by decide) (by decide) (by rw [hbbv]; simp)

/-- C9 witness: an infobox redefining the field name is overridden by the
candidate's identity fields in the inserted record. -/
theorem identity_fields_inserted_witness :
    ∃ r pop lat lon, [rNameClash] = ([] : DB) ++ [r] ∧
      pyInt cityBelgrade.population = some pop ∧
      bGet? r "name" = some (Value.str cityBelgrade.cityLabel) ∧
      bGet? r "population" = some (Value.intv pop) ∧
      bGet? r "country" = some (Value.str cityBelgrade.countryLabel) ∧
      bGet? r "city_wd" = some (Value.str cityBelgrade.city) ∧
      bGet? r "gps_lat" = some (Value.num lat) ∧
      bGet? r "gps_lon" = some (Value.num lon) :=
  identity_fields_inserted envNameClash cityBelgrade [] [rNameClash] (by decide)

/-! ### Key-set preservation through coercion -/

theorem bHas_iff_mem (b : Box) (k : String) : bHas b k = true ↔ k ∈ b.map Prod.fst := by
  induction b with
  | nil => simp [bHas, bGet?]
  | cons kv rest ih =>
    obtain ⟨k0, v0⟩ := kv
    by_cases hk : k0 = k
    · simp [bHas, bGet?, hk]
    · have h2 : ¬ (k = k0) := fun he => hk he.symm
      rw [bHas, bGet?, if_neg hk, ← bHas, List.map_cons, List.mem_cons, ih]
      simp [h2]

theorem coerceKey_keys {m k : String} {b b1 : Box} (h : coerceKey m b k = Except.ok b1) :
    b1.map Prod.fst = b.map Prod.fst := by
  rw [coerceKey] at h
  split at h
  · split at h
    · rename_i s heq
      split at h
      · split at h
        · rename_i q hf
          cases h
          refine keys_bSet_of_has b k _ ?_
          rw [bHas, heq]
          rfl
        · cases h
          rfl
      · cases h
        rfl
    · cases h
    · cases h
      rfl
  · cases h
    rfl

theorem coerceKeys_keys {m : String} :
    ∀ (ks : List String) (b b1 : Box), coerceKeys m b ks = Except.ok b1 →
      b1.map Prod.fst = b.map Prod.fst := by
  intro ks
  induction ks with
  | nil => intro b b1 h; cases h; rfl
  | cons k ks ih =>
    intro b b1 h
    rw [coerceKeys] at h
    cases hck : coerceKey m b k with
    | error e => rw [hck] at h; cases h
    | ok b2 =>
      rw [hck] at h
      rw [ih b2 b1 h, coerceKey_keys hck]

theorem coerceMonths_keys :
    ∀ (ms : List String) (b b1 : Box), coerceMonths b ms = Except.ok b1 →
      b1.map Prod.fst = b.map Prod.fst := by
  intro ms
  induction ms with
  | nil => intro b b1 h; cases h; rfl
  | cons m ms ih =>
    intro b b1 h
    rw [coerceMonths] at h
    cases hck : coerceKeys m b (b.map Prod.fst) with
    | error e => rw [hck] at h; cases h
    | ok b2 =>
      rw [hck] at h
      rw [ih b2 b1 h, coerceKeys_keys _ b b2 hck]

/-! ### The removal stage dichotomy -/

theorem allFloats_true (b : Box) (p : String) :
    ∀ ms, allFloats b p ms = Except.ok true →
      ∀ m ∈ ms, isNumO (bGet? b (monthKey m p)) = true := by
  intro ms
  induction ms with
  | nil => intro _ m hm; cases hm
  | cons m0 ms ih =>
    intro h m hm
    rw [allFloats] at h
    split at h
    · cases h
    · rename_i v hg
      split at h
      · rename_i hv
        rcases List.mem_cons.mp hm with heq | htail
        · subst heq
          rw [hg, isNumO]
          exact hv
        · exact ih h m htail
      · cases h

theorem delMonths_nodup {p : String} :
    ∀ (ms : List String) (b b1 : Box), (b.map Prod.fst).Nodup →
      delMonths p b ms = Except.ok b1 → (b1.map Prod.fst).Nodup := by
  intro ms
  induction ms with
  | nil => intro b b1 hnd h; cases h; exact hnd
  | cons m ms ih =>
    intro b b1 hnd h
    rw [delMonths] at h
    split at h
    · exact ih _ b1 (nodup_keys_bDel b _ hnd) h
    · cases h

theorem delMonths_run_spec {p : String} :
    ∀ (ms : List String) (b b1 : Box), (b.map Prod.fst).Nodup →
      ms.Pairwise (fun a c => monthKey a p ≠ monthKey c p) →
      delMonths p b ms = Except.ok b1 →
      ∀ m ∈ ms, bGet? b1 (monthKey m p) = none := by
  intro ms
  induction ms with
  | nil => intro b b1 _ _ _ m hm; cases hm
  | cons m0 ms ih =>
    intro b b1 hnd hpw h m hm
    obtain ⟨h01, hpw'⟩ := List.pairwise_cons.mp hpw
    rw [delMonths] at h
    split at h
    · rcases List.mem_cons.mp hm with heq | htail
      · subst heq
        rw [delMonths_pres ms (fun m1 h1 => h01 m1 h1) _ b1 h,
          bGet?_bDel_self b _ hnd]
      · exact ih _ b1 (nodup_keys_bDel b _ hnd) hpw' h m htail
    · cases h

theorem removeParams_pres_key {kk : String} :
    ∀ (ps : List String) (b b1 : Box),
      (∀ p1 ∈ ps, ∀ m1 ∈ MONTHS, kk ≠ monthKey m1 p1) →
      removeParams b ps = Except.ok b1 → bGet? b1 kk = bGet? b kk := by
  intro ps
  induction ps with
  | nil => intro b b1 _ h; cases h; rfl
  | cons p ps ih =>
    intro b b1 hne h
    have hne0 : ∀ m1 ∈ MONTHS, kk ≠ monthKey m1 p :=
      fun m1 h1 => hne p (List.mem_cons_self p ps) m1 h1
    have hne' : ∀ p1 ∈ ps, ∀ m1 ∈ MONTHS, kk ≠ monthKey m1 p1 :=
      fun p1 h1 => hne p1 (List.mem_cons_of_mem p h1)
    rw [removeParams] at h
    by_cases hj : bHas b (monthKey "Jan" p) = true
    · rw [if_pos hj] at h
      cases haf : allFloats b p MONTHS with
      | error e => rw [haf] at h; cases h
      | ok flag =>
        rw [haf] at h
        cases flag with
        | true => exact ih b b1 hne' h
        | false =>
          cases hdel : delMonths p b MONTHS with
          | error e => rw [hdel] at h; cases h
          | ok b2 =>
            rw [hdel] at h
            rw [ih b2 b1 hne' h, delMonths_pres MONTHS hne0 b b2 hdel]
    · rw [if_neg hj] at h
      exact ih b b1 hne' h

theorem removeParams_nodup :
    ∀ (ps : List String) (b b1 : Box), (b.map Prod.fst).Nodup →
      removeParams b ps = Except.ok b1 → (b1.map Prod.fst).Nodup := by
  intro ps
  induction ps with
  | nil => intro b b1 hnd h; cases h; exact hnd
  | cons p ps ih =>
    intro b b1 hnd h
    rw [removeParams] at h
    by_cases hj : bHas b (monthKey "Jan" p) = true
    · rw [if_pos hj] at h
      cases haf : allFloats b p MONTHS with
      | error e => rw [haf] at h; cases h
      | ok flag =>
        rw [haf] at h
        cases flag with
        | true => exact ih b b1 hnd h
        | false =>
          cases hdel : delMonths p b MONTHS with
          | error e => rw [hdel] at h; cases h
          | ok b2 =>
            rw [hdel] at h
            exact ih b2 b1 (delMonths_nodup MONTHS b b2 hnd hdel) h
    · rw [if_neg hj] at h
      exact ih b b1 hnd h

theorem removeParams_dich {p : String} :
    ∀ (ps : List String) (b : Box), p ∈ ps → ps.Nodup →
      (b.map Prod.fst).Nodup →
      (∀ m ∈ MONTHS, bHas b (monthKey m p) = true) →
      ∀ b1, removeParams b ps = Except.ok b1 →
      (∀ m ∈ MONTHS, isNumO (bGet? b1 (monthKey m p)) = true) ∨
      (∀ m ∈ MONTHS, bGet? b1 (monthKey m p) = none) := by
  intro ps
  induction ps with
  | nil => intro b hmem; cases hmem
  | cons p0 ps ih =>
    intro b hmem hnd hbnd h12 b1 h
    simp only [List.nodup_cons] at hnd
    rw [removeParams] at h
    rcases List.mem_cons.mp hmem with heq | htail
    · subst heq
      have hne' : ∀ m ∈ MONTHS, ∀ p1 ∈ ps, ∀ m1 ∈ MONTHS, monthKey m p ≠ monthKey m1 p1 := by
        intro m hm p1 h1 m1 hm1 he
        have hp := (monthKey_inj (month_data_len m hm) (month_data_len m1 hm1) he).2
        exact hnd.1 (hp ▸ h1)
      rw [if_pos (h12 "Jan" (by decide))] at h
      cases haf : allFloats b p MONTHS with
      | error e => rw [haf] at h; cases h
      | ok flag =>
        rw [haf] at h
        cases flag with
        | true =>
          left
          intro m hm
          rw [removeParams_pres_key ps b b1 (fun p1 h1 m1 hm1 => hne' m hm p1 h1 m1 hm1) h]
          exact allFloats_true b p MONTHS haf m hm
        | false =>
          cases hdel : delMonths p b MONTHS with
          | error e => rw [hdel] at h; cases h
          | ok b2 =>
            rw [hdel] at h
            right
            intro m hm
            rw [removeParams_pres_key ps b2 b1 (fun p1 h1 m1 hm1 => hne' m hm p1 h1 m1 hm1) h]
            exact delMonths_run_spec MONTHS b b2 hbnd (months_pairwise_keys p) hdel m hm
    · have hne0 : ∀ m ∈ MONTHS, ∀ m1 ∈ MONTHS, monthKey m p ≠ monthKey m1 p0 := by
        intro m hm m1 hm1 he
        have hp := (monthKey_inj (month_data_len m hm) (month_data_len m1 hm1) he).2
        exact hnd.1 (hp ▸ htail)
      by_cases hj : bHas b (monthKey "Jan" p0) = true
      · rw [if_pos hj] at h
        cases haf : allFloats b p0 MONTHS with
        | error e => rw [haf] at h; cases h
        | ok flag =>
          rw [haf] at h
          cases flag with
          | true => exact ih b htail hnd.2 hbnd h12 b1 h
          | false =>
            cases hdel : delMonths p0 b MONTHS with
            | error e => rw [hdel] at h; cases h
            | ok b2 =>
              rw [hdel] at h
              have h12' : ∀ m ∈ MONTHS, bHas b2 (monthKey m p) = true := by
                intro m hm
                rw [bHas, delMonths_pres MONTHS (hne0 m hm) b b2 hdel]
                exact h12 m hm
              exact ih b2 htail hnd.2 (delMonths_nodup MONTHS b b2 hbnd hdel) h12' b1 h
      · rw [if_neg hj] at h
        exact ih b htail hnd.2 hbnd h12 b1 h

/-! ### Monotone value lemmas for the conversion stage -/

theorem convMonths_isNum_mono {f : ℚ → ℚ} {p : String} :
    ∀ (ms : List String) (b b1 : Box), convMonths f p b ms = Except.ok b1 →
      ∀ k, isNumO (bGet? b k) = true → isNumO (bGet? b1 k) = true := by
  intro ms
  induction ms with
  | nil => intro b b1 h k hk; cases h; exact hk
  | cons m ms ih =>
    intro b b1 h k hk
    rw [convMonths] at h
    cases hg : bGet? b (monthKey m p) with
    | none => rw [hg] at h; cases h
    | some v =>
      rw [hg] at h
      cases v with
      | str s => cases h
      | num q =>
        refine ih _ b1 h k ?_
        by_cases hkm : k = monthKey m p
        · subst hkm
          rw [bGet?_bSet_self]
          rfl
        · rw [bGet?_bSet_ne _ _ _ _ hkm]
          exact hk
      | intv z =>
        refine ih _ b1 h k ?_
        by_cases hkm : k = monthKey m p
        · subst hkm
          rw [bGet?_bSet_self]
          rfl
        · rw [bGet?_bSet_ne _ _ _ _ hkm]
          exact hk

theorem convMonths_none_mono {f : ℚ → ℚ} {p : String} :
    ∀ (ms : List String) (b b1 : Box), convMonths f p b ms = Except.ok b1 →
      ∀ k, bGet? b k = none → bGet? b1 k = none := by
  intro ms
  induction ms with
  | nil => intro b b1 h k hk; cases h; exact hk
  | cons m ms ih =>
    intro b b1 h k hk
    rw [convMonths] at h
    cases hg : bGet? b (monthKey m p) with
    | none => rw [hg] at h; cases h
    | some v =>
      rw [hg] at h
      have hkm : k ≠ monthKey m p := by
        intro he
        rw [he, hg] at hk
        cases hk
      cases v with
      | str s => cases h
      | num q =>
        refine ih _ b1 h k ?_
        rw [bGet?_bSet_ne _ _ _ _ hkm]
        exact hk
      | intv z =>
        refine ih _ b1 h k ?_
        rw [bGet?_bSet_ne _ _ _ _ hkm]
        exact hk

theorem convParams_isNum_mono :
    ∀ (ps : List (String × (ℚ → ℚ))) (b b1 : Box), convParams b ps = Except.ok b1 →
      ∀ k, isNumO (bGet? b k) = true → isNumO (bGet? b1 k) = true := by
  intro ps
  induction ps with
  | nil => intro b b1 h k hk; cases h; exact hk
  | cons pf ps ih =>
    intro b b1 h k hk
    rw [convParams] at h
    split at h
    · cases hcm : convMonths pf.2 pf.1 b MONTHS with
      | error e => rw [hcm] at h; cases h
      | ok b2 =>
        rw [hcm] at h
        exact ih b2 b1 h k (convMonths_isNum_mono MONTHS b b2 hcm k hk)
    · exact ih b b1 h k hk

theorem convParams_none_mono :
    ∀ (ps : List (String × (ℚ → ℚ))) (b b1 : Box), convParams b ps = Except.ok b1 →
      ∀ k, bGet? b k = none → bGet? b1 k = none := by
  intro ps
  induction ps with
  | nil => intro b b1 h k hk; cases h; exact hk
  | cons pf ps ih =>
    intro b b1 h k hk
    rw [convParams] at h
    split at h
    · cases hcm : convMonths pf.2 pf.1 b MONTHS with
      | error e => rw [hcm] at h; cases h
      | ok b2 =>
        rw [hcm] at h
        exact ih b2 b1 h k (convMonths_none_mono MONTHS b b2 hcm k hk)
    · exact ih b b1 h k hk

/-! ### Year and stdev keys never collide with month keys -/

theorem stdevKey_ne_monthKey (p m p1 : String) (hm : m.data.length = 3) :
    "year " ++ p ++ " stdev" ≠ monthKey m p1 := by
  intro he
  have hd : (("year " ++ p) ++ " stdev").data = (monthKey m p1).data := by rw [he]
  rw [string_data_append, string_data_append, monthKey_data] at hd
  have hy : ("year " : String).data = ['y', 'e', 'a', 'r', ' '] := by decide
  rw [hy] at hd
  have h4 := congrArg (fun l => l[3]?) hd
  have hl : ((['y', 'e', 'a', 'r', ' '] ++ p.data) ++ (" stdev" : String).data)[3]? =
      some 'r' := by
    rw [List.getElem?_append_left (by simp)]
    rfl
  have hr : (m.data ++ ' ' :: p1.data)[3]? = some ' ' := by
    rw [List.getElem?_append_right (by omega), hm]
    norm_num
  simp only [hl, hr] at h4
  cases h4

/-- C1 amended: for a merged infobox record with distinct field names, a
recognized parameter all twelve of whose month-fields are present ends in
the final normalized record with either all twelve as floats or none of
them present. -/
theorem all_or_none_amended (b b1 : Box) (p : String)
    (hnd : (b.map Prod.fst).Nodup)
    (hp : p ∈ PARAMS)
    (h12 : ∀ m ∈ MONTHS, bHas b (monthKey m p) = true)
    (hrun : normalizeBox b = Except.ok b1) :
    (∀ m ∈ MONTHS, isNumO (bGet? b1 (monthKey m p)) = true) ∨
    (∀ m ∈ MONTHS, bGet? b1 (monthKey m p) = none) := by
  rw [normalizeBox] at hrun
  cases h1 : coerceStage b with
  | error e => simp only [h1] at hrun; cases hrun
  | ok c1 =>
    simp only [h1, checkStage_ok c1] at hrun
    have hkeys : c1.map Prod.fst = b.map Prod.fst := coerceMonths_keys MONTHS b c1 h1
    have hnd1 : (c1.map Prod.fst).Nodup := by rw [hkeys]; exact hnd
    have h12' : ∀ m ∈ MONTHS, bHas c1 (monthKey m p) = true := by
      intro m hm
      rw [bHas_iff_mem, hkeys, ← bHas_iff_mem]
      exact h12 m hm
    cases h3 : removalStage c1 with
    | error e => simp only [h3] at hrun; cases hrun
    | ok c3 =>
      simp only [h3] at hrun
      have hdich := removeParams_dich PARAMS c1 hp (by decide) hnd1 h12' c3 h3
      cases h4 : convStage c3 with
      | error e => simp only [h4] at hrun; cases hrun
      | ok c4 =>
        simp only [h4] at hrun
        cases h5 : aggStage c4 with
        | error e => simp only [h5] at hrun; cases hrun
        | ok c5 =>
          simp only [h5] at hrun
          have hstep : ∀ m ∈ MONTHS, bGet? b1 (monthKey m p) = bGet? c4 (monthKey m p) := by
            intro m hm
            rw [stdevParams_pres STDEV_PARAMS
                (fun p1 _ => (stdevKey_ne_monthKey p1 m p (month_data_len m hm)).symm) c5 b1 hrun,
              aggParams_pres AGG_PARAMS
                (fun pg _ => (yearKey_ne_monthKey pg.1 m p (month_data_len m hm)).symm) c4 c5 h5]
          cases hdich with
          | inl hnum =>
            left
            intro m hm
            rw [hstep m hm]
            exact convParams_isNum_mono CONV_PARAMS c3 c4 h4 _ (hnum m hm)
          | inr hnone =>
            right
            intro m hm
            rw [hstep m hm]
            exact convParams_none_mono CONV_PARAMS c3 c4 h4 _ (hnone m hm)

/-- C1 amended witness: a merged record with twelve textual 5.0 months of
high C normalizes with all twelve kept as floats. -/
theorem all_or_none_amended_witness :
    (∀ m ∈ MONTHS, isNumO (bGet? (boxC6 ++ [("year high C", Value.num (qOf 5 1))])
      (monthKey m "high C")) = true) ∨
    (∀ m ∈ MONTHS, bGet? (boxC6 ++ [("year high C", Value.num (qOf 5 1))])
      (monthKey m "high C") = none) :=
  all_or_none_amended boxC1W (boxC6 ++ [("year high C", Value.num (qOf 5 1))]) "high C"
    (by decide) (by decide) (by decide) (by decide)

/-- C1 counterexample: a found infobox holding only a February value for
high C is processed without halting, and the final inserted record keeps
that single float month — the parameter is neither fully present nor
entirely removed, refuting the all-or-none invariant as stated. -/
theorem all_or_none_cex :
    (process_city envFebOnly cityBelgrade []).map (fun db => db.map (fun r =>
      bGet? r (monthKey "Feb" "high C") == some (Value.num (qOf 5 1)) &&
      (bGet? r (monthKey "Jan" "high C")).isNone &&
      !(MONTHS.all (fun m => isNumO (bGet? r (monthKey m "high C"))) ||
        MONTHS.all (fun m => (bGet? r (monthKey m "high C")).isNone)))) =
    Except.ok [true] := by decide

/-! ### Replacement lemmas for the minus-glyph normalization -/

theorem repAux_single (c0 c1 : Char) :
    ∀ s : List Char, repAux [c0] [c1] s 0 = s.map (fun c => if c = c0 then c1 else c) := by
  intro s
  induction s with
  | nil => rfl
  | cons c rest ih =>
    rw [repAux]
    by_cases hc : c = c0
    · subst hc
      have hp : [c].isPrefixOf (c :: rest) = true := by
        simp [List.isPrefixOf]
      rw [if_pos hp]
      simp [ih]
    · have hp : [c0].isPrefixOf (c :: rest) = false := by
        simp [List.isPrefixOf]
        exact fun he => hc he.symm
      rw [if_neg (by rw [hp]; exact Bool.false_ne_true)]
      simp [ih, hc]

theorem glyph_map_idem (c0 c1 : Char) (h : c1 ≠ c0) (s : List Char) :
    (s.map (fun c => if c = c0 then c1 else c)).map (fun c => if c = c0 then c1 else c) =
      s.map (fun c => if c = c0 then c1 else c) := by
  rw [List.map_map]
  congr 1
  funext c
  by_cases hc : c = c0
  · simp [hc, h]
  · simp [hc]

theorem isPrefixOf_map (f : Char → Char) :
    ∀ (pat l : List Char), (∀ c ∈ pat, f c = c) → (∀ c, f c ∈ pat → f c = c) →
      pat.isPrefixOf (l.map f) = pat.isPrefixOf l := by
  intro pat
  induction pat with
  | nil => intro l _ _; simp [List.isPrefixOf]
  | cons p ps ih =>
    intro l hpat hpat2
    cases l with
    | nil => rfl
    | cons c rest =>
      rw [List.map_cons, List.isPrefixOf, List.isPrefixOf,
        ih rest (fun c1 h1 => hpat c1 (List.mem_cons_of_mem p h1))
          (fun c1 h1 => hpat2 c1 (List.mem_cons_of_mem p h1))]
      by_cases hfc : f c = c
      · rw [hfc]
      · have hpc : (p == f c) = false := by
          apply beq_false_of_ne
          intro he
          exact hfc (hpat2 c (he ▸ List.mem_cons_self p ps))
        have hpc2 : (p == c) = false := by
          apply beq_false_of_ne
          intro he
          exact hfc (hpat c (he ▸ List.mem_cons_self p ps))
        rw [hpc, hpc2]

theorem repAux_map_comm (f : Char → Char) (pat rep : List Char)
    (hpat : ∀ c ∈ pat, f c = c) (hpat2 : ∀ c, f c ∈ pat → f c = c)
    (hrep : rep.map f = rep) :
    ∀ (s : List Char) (k : Nat), repAux pat rep (s.map f) k = (repAux pat rep s k).map f := by
  intro s
  induction s with
  | nil => intro k; cases k <;> rfl
  | cons c rest ih =>
    intro k
    cases k with
    | succ j =>
      rw [List.map_cons, repAux, repAux]
      exact ih j
    | zero =>
      rw [List.map_cons, repAux, repAux, ← List.map_cons,
        isPrefixOf_map f pat (c :: rest) hpat hpat2]
      by_cases hp : pat.isPrefixOf (c :: rest) = true
      · rw [if_pos hp, if_pos hp, List.map_append, hrep]
        congr 1
        exact ih (pat.length - 1)
      · rw [if_neg hp, if_neg hp, List.map_cons]
        congr 1
        exact ih 0

/-! ### Normalization is insensitive to pre-replacing a minus glyph -/

theorem toList_asString (l : List Char) : l.asString.toList = l := rfl

theorem pyReplace_minus_toList (s : String) :
    (pyReplace s "−" "-").toList = s.toList.map (fun c => if c = '−' then '-' else c) := by
  have h1 : (pyReplace s "−" "-").toList = repAux "−".toList "-".toList s.toList 0 := rfl
  have e1 : "−".toList = ['−'] := by decide
  have e2 : "-".toList = ['-'] := by decide
  rw [h1, e1, e2, repAux_single]

theorem pyReplace_emdash_toList (s : String) :
    (pyReplace s "—" "-").toList = s.toList.map (fun c => if c = '—' then '-' else c) := by
  have h1 : (pyReplace s "—" "-").toList = repAux "—".toList "-".toList s.toList 0 := rfl
  have e1 : "—".toList = ['—'] := by decide
  have e2 : "-".toList = ['-'] := by decide
  rw [h1, e1, e2, repAux_single]

theorem pyNormalize_toList (s : String) :
    (pyNormalize s).toList =
      repAux "—".toList "-".toList
        (repAux "trace".toList "0".toList
          (repAux "&minus;".toList "-".toList
            (s.toList.map (fun c => if c = '−' then '-' else c)) 0) 0) 0 := by
  have h1 : (pyNormalize s).toList =
      repAux "—".toList "-".toList
        (repAux "trace".toList "0".toList
          (repAux "&minus;".toList "-".toList
            (repAux "−".toList "-".toList s.toList 0) 0) 0) 0 := rfl
  have e1 : "−".toList = ['−'] := by decide
  have e2 : "-".toList = ['-'] := by decide
  rw [h1]
  congr 2
  rw [e1, e2, repAux_single]

theorem pyNormalize_minus_invariant (s : String) :
    pyNormalize (pyReplace s "−" "-") = pyNormalize s := by
  apply String.ext
  show (pyNormalize (pyReplace s "−" "-")).toList = (pyNormalize s).toList
  rw [pyNormalize_toList, pyNormalize_toList, pyReplace_minus_toList,
    glyph_map_idem '−' '-' (by decide)]

theorem pyNormalize_emdash_invariant (s : String) :
    pyNormalize (pyReplace s "—" "-") = pyNormalize s := by
  have f4pat1 : ∀ c ∈ "&minus;".toList, (if c = '—' then '-' else c) = c := by decide
  have f4pat2 : ∀ c : Char, (if c = '—' then '-' else c) ∈ "&minus;".toList →
      (if c = '—' then '-' else c) = c := by
    intro c hc
    by_cases h1 : c = '—'
    · rw [h1] at hc
      exact absurd hc (by decide)
    · rw [if_neg h1]
  have f4tr1 : ∀ c ∈ "trace".toList, (if c = '—' then '-' else c) = c := by decide
  have f4tr2 : ∀ c : Char, (if c = '—' then '-' else c) ∈ "trace".toList →
      (if c = '—' then '-' else c) = c := by
    intro c hc
    by_cases h1 : c = '—'
    · rw [h1] at hc
      exact absurd hc (by decide)
    · rw [if_neg h1]
  apply String.ext
  show (pyNormalize (pyReplace s "—" "-")).toList = (pyNormalize s).toList
  rw [pyNormalize_toList, pyNormalize_toList, pyReplace_emdash_toList]
  have hc : (s.toList.map (fun c => if c = '—' then '-' else c)).map
      (fun c => if c = '−' then '-' else c) =
      ((s.toList.map (fun c => if c = '−' then '-' else c)).map
        (fun c => if c = '—' then '-' else c)) := by
    rw [List.map_map, List.map_map]
    congr 1
    funext c
    by_cases h1 : c = '—'
    · simp [h1]
    · by_cases h2 : c = '−' <;> simp [h1, h2]
  rw [hc,
    repAux_map_comm (fun c => if c = '—' then '-' else c) "&minus;".toList "-".toList
      f4pat1 f4pat2 (by decide),
    repAux_map_comm (fun c => if c = '—' then '-' else c) "trace".toList "0".toList
      f4tr1 f4tr2 (by decide)]
  have e1 : "—".toList = ['—'] := by decide
  have e2 : "-".toList = ['-'] := by decide
  rw [e1, e2, repAux_single, repAux_single]
  exact glyph_map_idem '—' '-' (by decide) _

/-- C5: a month-keyed field with non-blank raw text is parsed as a float
of the minus-normalized text and stored back in place, a parse failure
being caught and leaving the raw text unchanged; pre-replacing either
minus glyph (the Unicode minus sign or the em dash) with an ASCII hyphen
never changes the parsed value; the glyph text −5.2 parses to -5.2 and
the token trace parses to exactly 0. -/
theorem month_coercion (b : Box) (m k s : String)
    (_hm : m ∈ MONTHS) (htk : tok m k = true)
    (hget : bGet? b k = some (Value.str s)) (hnb : pyStrip s ≠ "") :
    (coerceKey m b k = Except.ok
      (match pyFloat (pyNormalize s) with
        | some q => bSet b k (Value.num q)
        | none => b)) ∧
    (pyFloat (pyNormalize s) = none → coerceKey m b k = Except.ok b) ∧
    (∀ t : String,
      pyFloat (pyNormalize (pyReplace t "−" "-")) = pyFloat (pyNormalize t) ∧
      pyFloat (pyNormalize (pyReplace t "—" "-")) = pyFloat (pyNormalize t)) ∧
    pyFloat (pyNormalize "−5.2") = some (qOf (-26) 5) ∧
    qOf (-26) 5 = -5.2 ∧
    pyFloat (pyNormalize "trace") = some 0 := by
  have hmain : coerceKey m b k = Except.ok
      (match pyFloat (pyNormalize s) with
        | some q => bSet b k (Value.num q)
        | none => b) := by
    rw [coerceKey, if_pos htk, hget]
    cases hf : pyFloat (pyNormalize s) with
    | some q => simp only [hf, if_pos hnb]
    | none => simp only [hf, if_pos hnb]
  refine ⟨hmain, ?_, ?_, by decide, ?_, by decide⟩
  · intro hf
    rw [hmain, hf]
  · intro t
    exact ⟨by rw [pyNormalize_minus_invariant], by rw [pyNormalize_emdash_invariant]⟩
  · rw [qOf_eq]
    norm_num

/-- C5 witness: the field Jan high C holding the glyph text −5.2 is
coerced in place to the float -5.2. -/
theorem month_coercion_witness :
    (coerceKey "Jan" [("Jan high C", Value.str "−5.2")] "Jan high C" = Except.ok
      (match pyFloat (pyNormalize "−5.2") with
        | some q => bSet [("Jan high C", Value.str "−5.2")] "Jan high C" (Value.num q)
        | none => [("Jan high C", Value.str "−5.2")])) ∧
    (pyFloat (pyNormalize "−5.2") = none →
      coerceKey "Jan" [("Jan high C", Value.str "−5.2")] "Jan high C" =
        Except.ok [("Jan high C", Value.str "−5.2")]) ∧
    (∀ t : String,
      pyFloat (pyNormalize (pyReplace t "−" "-")) = pyFloat (pyNormalize t) ∧
      pyFloat (pyNormalize (pyReplace t "—" "-")) = pyFloat (pyNormalize t)) ∧
    pyFloat (pyNormalize "−5.2") = some (qOf (-26) 5) ∧
    qOf (-26) 5 = -5.2 ∧
    pyFloat (pyNormalize "trace") = some 0 :=
  month_coercion [("Jan high C", Value.str "−5.2")] "Jan" "Jan high C" "−5.2"
    (by decide) (by decide) (by decide) (by decide)

/-! ### Append and update lemmas for disjoint merges -/

theorem bGet?_append_of_none (a b : Box) (k : String) (h : bGet? a k = none) :
    bGet? (a ++ b) k = bGet? b k := by
  induction a with
  | nil => rfl
  | cons kv rest ih =>
    rw [bGet?] at h
    by_cases hk : kv.1 = k
    · rw [if_pos hk] at h
      cases h
    · rw [if_neg hk] at h
      rw [List.cons_append, bGet?, if_neg hk]
      exact ih h

theorem bHas_append (a b : Box) (k : String) :
    bHas (a ++ b) k = (bHas a k || bHas b k) := by
  induction a with
  | nil => simp [bHas, bGet?]
  | cons kv rest ih =>
    obtain ⟨k0, v0⟩ := kv
    by_cases hk : k0 = k
    · simp [bHas, bGet?, hk]
    · simp only [bHas, List.cons_append, bGet?, if_neg hk] at ih ⊢
      exact ih

theorem bSet_append_not_has (b : Box) (k : String) (v : Value) (h : bHas b k = false) :
    bSet b k v = b ++ [(k, v)] := by
  induction b with
  | nil => rfl
  | cons kv rest ih =>
    rw [bHas, bGet?] at h
    by_cases hk : kv.1 = k
    · rw [if_pos hk] at h
      cases h
    · rw [if_neg hk] at h
      rw [bSet, if_neg hk, List.cons_append, ih h]

theorem bUpdate_append :
    ∀ (vs b : Box), (∀ kv ∈ vs, bHas b kv.1 = false) → (vs.map Prod.fst).Nodup →
      bUpdate b vs = b ++ vs := by
  intro vs
  induction vs with
  | nil => intro b _ _; simp [bUpdate]
  | cons kv vs ih =>
    intro b hno hnd
    simp only [List.map_cons, List.nodup_cons] at hnd
    rw [bUpdate, bSet_append_not_has b kv.1 kv.2 (hno kv (List.mem_cons_self kv vs))]
    rw [ih (b ++ [(kv.1, kv.2)]) ?hno2 hnd.2]
    · simp
    · intro kv1 h1
      rw [bHas_append, hno kv1 (List.mem_cons_of_mem kv h1), Bool.false_or]
      have hne : kv1.1 ≠ kv.1 := by
        intro he
        exact hnd.1 (he ▸ List.mem_map_of_mem Prod.fst h1)
      have hne2 : ¬ (kv.1 = kv1.1) := fun h2 => hne (Eq.symm h2)
      simp [bHas, bGet?, hne2]

/-! ### Lookup and assignment on a month-keyed map block -/

theorem bGet?_mapMonth (p : String) (w : String → Value) (rest : Box) :
    ∀ (ms : List String), ms.Pairwise (fun a c => monthKey a p ≠ monthKey c p) →
      ∀ m0 ∈ ms,
        bGet? ((ms.map fun m => (monthKey m p, w m)) ++ rest) (monthKey m0 p) = some (w m0) := by
  intro ms
  induction ms with
  | nil => intro _ m0 hm; cases hm
  | cons m1 ms ih =>
    intro hpw m0 hm
    obtain ⟨h01, hpw'⟩ := List.pairwise_cons.mp hpw
    rcases List.mem_cons.mp hm with heq | htail
    · subst heq
      simp [bGet?]
    · have hne : ¬ (monthKey m1 p = monthKey m0 p) := h01 m0 htail
      rw [List.map_cons, List.cons_append, bGet?, if_neg hne]
      exact ih hpw' m0 htail

theorem bSet_mapMonth (p : String) (w : String → Value) (rest : Box) (v : Value) :
    ∀ (ms : List String), ms.Pairwise (fun a c => monthKey a p ≠ monthKey c p) →
      ∀ m0 ∈ ms,
        bSet ((ms.map fun m => (monthKey m p, w m)) ++ rest) (monthKey m0 p) v =
          (ms.map fun m => (monthKey m p, if m = m0 then v else w m)) ++ rest := by
  intro ms
  induction ms with
  | nil => intro _ m0 hm; cases hm
  | cons m1 ms ih =>
    intro hpw m0 hm
    obtain ⟨h01, hpw'⟩ := List.pairwise_cons.mp hpw
    rcases List.mem_cons.mp hm with heq | htail
    · subst heq
      rw [List.map_cons, List.cons_append, bSet, if_pos rfl, List.map_cons, if_pos rfl,
        List.cons_append]
      congr 2
      apply List.map_congr_left
      intro m hm1
      have hne : ¬ (m = m0) := by
        intro he
        exact h01 m hm1 (by rw [he])
      rw [if_neg hne]
    · have hne0 : ¬ (m1 = m0) := by
        intro he
        exact h01 m0 htail (by rw [he])
      have hnek : ¬ (monthKey m1 p = monthKey m0 p) := h01 m0 htail
      rw [List.map_cons, List.cons_append, bSet, if_neg hnek, List.map_cons, if_neg hne0,
        List.cons_append, ih hpw' m0 htail]

/-! ### Skip lemmas for stages that find nothing to do -/

theorem coerceKey_skip {m k : String} (b : Box) (h : tok m k = false) :
    coerceKey m b k = Except.ok b := by
  rw [coerceKey, if_neg (by rw [h]; exact Bool.false_ne_true)]

theorem coerceKeys_skip {m : String} :
    ∀ (ks : List String) (b : Box), (∀ k ∈ ks, tok m k = false) →
      coerceKeys m b ks = Except.ok b := by
  intro ks
  induction ks with
  | nil => intro b _; rfl
  | cons k ks ih =>
    intro b h
    rw [coerceKeys, coerceKey_skip b (h k (List.mem_cons_self k ks))]
    exact ih b (fun k1 h1 => h k1 (List.mem_cons_of_mem k h1))

theorem allFloats_of_isNum (b : Box) (p : String) :
    ∀ ms, (∀ m ∈ ms, isNumO (bGet? b (monthKey m p)) = true) →
      allFloats b p ms = Except.ok true := by
  intro ms
  induction ms with
  | nil => intro _; rfl
  | cons m ms ih =>
    intro h
    have hm := h m (List.mem_cons_self m ms)
    cases hg : bGet? b (monthKey m p) with
    | none => rw [hg] at hm; cases hm
    | some v =>
      rw [hg] at hm
      have hm2 : isFloatV v = true := hm
      rw [allFloats]
      simp only [hg]
      rw [if_pos hm2]
      exact ih (fun m1 h1 => h m1 (List.mem_cons_of_mem m h1))

theorem removeParams_id :
    ∀ (ps : List String) (b : Box),
      (∀ p ∈ ps, bHas b (monthKey "Jan" p) = false ∨ allFloats b p MONTHS = Except.ok true) →
      removeParams b ps = Except.ok b := by
  intro ps
  induction ps with
  | nil => intro b _; rfl
  | cons p ps ih =>
    intro b h
    rw [removeParams]
    by_cases hj : bHas b (monthKey "Jan" p) = true
    · rw [if_pos hj]
      rcases h p (List.mem_cons_self p ps) with hf | ht
      · rw [hj] at hf; cases hf
      · rw [ht]
        exact ih b (fun p1 h1 => h p1 (List.mem_cons_of_mem p h1))
    · rw [if_neg hj]
      exact ih b (fun p1 h1 => h p1 (List.mem_cons_of_mem p h1))

theorem convParams_skip :
    ∀ (ps : List (String × (ℚ → ℚ))) (b : Box),
      (∀ pf ∈ ps, bHas b (monthKey "Jan" pf.1) = false) →
      convParams b ps = Except.ok b := by
  intro ps
  induction ps with
  | nil => intro b _; rfl
  | cons pf ps ih =>
    intro b h
    have hf := h pf (List.mem_cons_self pf ps)
    rw [convParams, if_neg (by rw [hf]; exact Bool.false_ne_true)]
    exact ih b (fun pf1 h1 => h pf1 (List.mem_cons_of_mem pf h1))

theorem aggParams_skip :
    ∀ (ps : List (String × (List ℚ → ℚ))) (b : Box),
      (∀ pg ∈ ps, bHas b (monthKey "Jan" pg.1) = false) →
      aggParams b ps = Except.ok b := by
  intro ps
  induction ps with
  | nil => intro b _; rfl
  | cons pg ps ih =>
    intro b h
    have hf := h pg (List.mem_cons_self pg ps)
    rw [aggParams, if_neg (by rw [hf]; exact Bool.false_ne_true)]
    exact ih b (fun pg1 h1 => h pg1 (List.mem_cons_of_mem pg h1))

theorem stdevParams_skip :
    ∀ (ps : List String) (b : Box),
      (∀ p ∈ ps, bHas b (monthKey "Jan" p) = false) →
      stdevParams b ps = Except.ok b := by
  intro ps
  induction ps with
  | nil => intro b _; rfl
  | cons p ps ih =>
    intro b h
    have hf := h p (List.mem_cons_self p ps)
    rw [stdevParams, if_neg (by rw [hf]; exact Bool.false_ne_true)]
    exact ih b (fun p1 h1 => h p1 (List.mem_cons_of_mem p h1))

/-! ### Coercion and conversion over a month-keyed map block -/

theorem coerceKeys_single {m0 key0 s : String} {q : ℚ}
    (hq : pyFloat (pyNormalize s) = some q) (hs : pyStrip s ≠ "")
    (htk : tok m0 key0 = true) :
    ∀ (ks : List String) (b : Box),
      (∀ k ∈ ks, k ≠ key0 → tok m0 k = false) → ks.Nodup →
      bGet? b key0 = some (Value.str s) →
      coerceKeys m0 b ks =
        Except.ok (if key0 ∈ ks then bSet b key0 (Value.num q) else b) := by
  intro ks
  induction ks with
  | nil => intro b _ _ _; simp [coerceKeys]
  | cons k ks ih =>
    intro b hks hnd hget
    simp only [List.nodup_cons] at hnd
    by_cases hk : k = key0
    · subst hk
      rw [coerceKeys, coerceKey, if_pos htk, hget]
      simp only [if_pos hs, hq]
      rw [coerceKeys_skip ks _ (fun k1 h1 => hks k1 (List.mem_cons_of_mem k h1)
        (fun he => hnd.1 (he ▸ h1)))]
      rw [if_pos (List.mem_cons_self k ks)]
    · rw [coerceKeys, coerceKey_skip b (hks k (List.mem_cons_self k ks) hk)]
      show coerceKeys m0 b ks =
        Except.ok (if key0 ∈ k :: ks then bSet b key0 (Value.num q) else b)
      rw [ih b (fun k1 h1 => hks k1 (List.mem_cons_of_mem k h1)) hnd.2 hget]
      congr 1
      by_cases hmem : key0 ∈ ks
      · rw [if_pos hmem, if_pos (List.mem_cons_of_mem k hmem)]
      · rw [if_neg hmem, if_neg (by
          intro hc
          rcases List.mem_cons.mp hc with he | hm
          · exact hk he.symm
          · exact hmem hm)]

theorem coerceMonths_mapMonth (p : String) (vals : String → String) (qv : String → ℚ)
    (rest : Box)
    (hrest : ∀ m ∈ MONTHS, ∀ k ∈ rest.map Prod.fst, tok m k = false)
    (htokne : ∀ m0 ∈ MONTHS, ∀ m1 ∈ MONTHS, m0 ≠ m1 → tok m0 (monthKey m1 p) = false)
    (hknd : ((MONTHS.map fun m => monthKey m p) ++ rest.map Prod.fst).Nodup)
    (hv : ∀ m ∈ MONTHS, pyFloat (pyNormalize (vals m)) = some (qv m))
    (hs : ∀ m ∈ MONTHS, pyStrip (vals m) ≠ "") :
    ∀ (rs : List String), rs.Sublist MONTHS →
    ∀ (w : String → Value), (∀ m ∈ rs, w m = Value.str (vals m)) →
    ∃ w1 : String → Value,
      coerceMonths ((MONTHS.map fun m => (monthKey m p, w m)) ++ rest) rs = Except.ok
        ((MONTHS.map fun m => (monthKey m p, w1 m)) ++ rest) ∧
      (∀ m, w1 m = if m ∈ rs then Value.num (qv m) else w m) := by
  intro rs
  induction rs with
  | nil =>
    intro _ w _
    refine ⟨w, rfl, ?_⟩
    intro m
    simp
  | cons m0 rs ih =>
    intro hsub w hw
    have hm0 : m0 ∈ MONTHS := hsub.mem (List.mem_cons_self m0 rs)
    have hsub' : rs.Sublist MONTHS := (List.sublist_cons_self m0 rs).trans hsub
    have hndrs : (m0 :: rs).Nodup := hsub.nodup (by decide)
    simp only [List.nodup_cons] at hndrs
    have hkeyeq : ((MONTHS.map fun m => (monthKey m p, w m)) ++ rest).map Prod.fst =
        (MONTHS.map fun m => monthKey m p) ++ rest.map Prod.fst := by
      simp [List.map_map, Function.comp]
    rw [coerceMonths, hkeyeq]
    rw [coerceKeys_single (hv m0 hm0) (hs m0 hm0) (tok_monthKey_self m0 p)
      ((MONTHS.map fun m => monthKey m p) ++ rest.map Prod.fst)
      _ ?hks hknd
      (bGet?_mapMonth p w rest MONTHS (months_pairwise_keys p) m0 hm0 |>.trans
        (by rw [hw m0 (List.mem_cons_self m0 rs)]))]
    case hks =>
      intro k hk hne
      rcases List.mem_append.mp hk with hmk | hrk
      · obtain ⟨m1, hm1, rfl⟩ := List.mem_map.mp hmk
        refine htokne m0 hm0 m1 hm1 ?_
        intro he
        exact hne (by rw [he])
      · exact hrest m0 hm0 k hrk
    rw [if_pos (List.mem_append_left _ (List.mem_map_of_mem _ hm0))]
    rw [bSet_mapMonth p w rest (Value.num (qv m0)) MONTHS (months_pairwise_keys p) m0 hm0]
    obtain ⟨w1, hrun, hchar⟩ := ih hsub'
      (fun m => if m = m0 then Value.num (qv m0) else w m)
      (by
        intro m hm
        have hne : ¬ (m = m0) := fun he => hndrs.1 (he ▸ hm)
        show (if m = m0 then Value.num (qv m0) else w m) = Value.str (vals m)
        rw [if_neg hne]
        exact hw m (List.mem_cons_of_mem m0 hm))
    refine ⟨w1, hrun, ?_⟩
    intro m
    rw [hchar m]
    by_cases h1 : m ∈ rs
    · rw [if_pos h1, if_pos (List.mem_cons_of_mem m0 h1)]
    · rw [if_neg h1]
      by_cases h2 : m = m0
      · subst h2
        rw [if_pos rfl, if_pos (List.mem_cons_self m rs)]
      · rw [if_neg h2, if_neg (by
          intro hc
          rcases List.mem_cons.mp hc with he | hmm
          · exact h2 he
          · exact h1 hmm)]

theorem convMonths_mapMonth (p : String) (f : ℚ → ℚ) (u : String → ℚ) (rest : Box) :
    ∀ (rs : List String), rs.Sublist MONTHS →
    ∀ (w : String → Value), (∀ m ∈ rs, w m = Value.num (u m)) →
    ∃ w1 : String → Value,
      convMonths f p ((MONTHS.map fun m => (monthKey m p, w m)) ++ rest) rs = Except.ok
        ((MONTHS.map fun m => (monthKey m p, w1 m)) ++ rest) ∧
      (∀ m, w1 m = if m ∈ rs then Value.num (round1 (f (u m))) else w m) := by
  intro rs
  induction rs with
  | nil =>
    intro _ w _
    refine ⟨w, rfl, ?_⟩
    intro m
    simp
  | cons m0 rs ih =>
    intro hsub w hw
    have hm0 : m0 ∈ MONTHS := hsub.mem (List.mem_cons_self m0 rs)
    have hsub' : rs.Sublist MONTHS := (List.sublist_cons_self m0 rs).trans hsub
    have hndrs : (m0 :: rs).Nodup := hsub.nodup (by decide)
    simp only [List.nodup_cons] at hndrs
    have hget : bGet? ((MONTHS.map fun m => (monthKey m p, w m)) ++ rest) (monthKey m0 p) =
        some (Value.num (u m0)) := by
      rw [bGet?_mapMonth p w rest MONTHS (months_pairwise_keys p) m0 hm0]
      rw [hw m0 (List.mem_cons_self m0 rs)]
    rw [convMonths]
    simp only [hget]
    rw [bSet_mapMonth p w rest (Value.num (round1 (f (u m0)))) MONTHS
      (months_pairwise_keys p) m0 hm0]
    obtain ⟨w1, hrun, hchar⟩ := ih hsub'
      (fun m => if m = m0 then Value.num (round1 (f (u m0))) else w m)
      (by
        intro m hm
        have hne : ¬ (m = m0) := fun he => hndrs.1 (he ▸ hm)
        show (if m = m0 then Value.num (round1 (f (u m0))) else w m) = Value.num (u m)
        rw [if_neg hne]
        exact hw m (List.mem_cons_of_mem m0 hm))
    refine ⟨w1, hrun, ?_⟩
    intro m
    rw [hchar m]
    by_cases h1 : m ∈ rs
    · rw [if_pos h1, if_pos (List.mem_cons_of_mem m0 h1)]
    · rw [if_neg h1]
      by_cases h2 : m = m0
      · subst h2
        rw [if_pos rfl, if_pos (List.mem_cons_self m rs)]
      · rw [if_neg h2, if_neg (by
          intro hc
          rcases List.mem_cons.mp hc with he | hmm
          · exact h2 he
          · exact h1 hmm)]

/-! ### The high-F end-to-end scenario -/

theorem bHas_false_iff (b : Box) (k : String) :
    bHas b k = false ↔ k ∉ b.map Prod.fst := by
  rw [← Bool.not_eq_true, bHas_iff_mem]

/-- C2 amended: when the located infobox holds exactly the twelve monthly
high F fields, all parseable as numbers, and nothing else, the inserted
record holds the twelve Celsius-converted high F fields in place, and no
year high F field and no year high F stdev field are added, because the
yearly-aggregation table covers only the metric-named parameters. -/
theorem high_f_scenario (env : Env) (c : City) (db : DB) (bb : Box)
    (vals : String → String) (qv : String → ℚ)
    (hbb : basic_box c = Except.ok bb)
    (hwb : get_weather_box env c =
      Except.ok (some (MONTHS.map fun m => (monthKey m "high F", vals m))))
    (hv : ∀ m ∈ MONTHS, pyFloat (pyNormalize (vals m)) = some (qv m))
    (hs : ∀ m ∈ MONTHS, pyStrip (vals m) ≠ "") :
    ∃ r, process_city env c db = Except.ok (db ++ [r]) ∧
      (∀ m ∈ MONTHS, bGet? r (monthKey m "high F") =
        some (Value.num (round1 (f2c (qv m))))) ∧
      bGet? r "year high F" = none ∧
      bGet? r "year high F stdev" = none := by
  obtain ⟨pop, lat, lon, _hpop, hbbv⟩ := basic_box_fields c bb hbb
  have hfst : bb.map Prod.fst =
      ["name", "population", "country", "city_wd", "gps_lat", "gps_lon"] := by
    rw [hbbv]
    rfl
  have hmerged : bUpdate (rawToBox (MONTHS.map fun m => (monthKey m "high F", vals m))) bb =
      (MONTHS.map fun m => (monthKey m "high F", Value.str (vals m))) ++ bb := by
    have hraw : rawToBox (MONTHS.map fun m => (monthKey m "high F", vals m)) =
        MONTHS.map fun m => (monthKey m "high F", Value.str (vals m)) := by
      simp [rawToBox, List.map_map, Function.comp]
    rw [hraw, bUpdate_append]
    · intro kv hkv
      rw [bHas_false_iff]
      have hkeq : (List.map Prod.fst
          (MONTHS.map fun m => (monthKey m "high F", Value.str (vals m)))) =
          MONTHS.map fun m => monthKey m "high F" := by
        simp [List.map_map, Function.comp]
      rw [hkeq]
      have hnot : ∀ k0 ∈ bb.map Prod.fst,
          k0 ∉ MONTHS.map fun m => monthKey m "high F" := by
        rw [hfst]
        decide
      exact hnot kv.1 (List.mem_map_of_mem Prod.fst hkv)
    · rw [hfst]
      decide
  have hw0 : ∀ m ∈ MONTHS, (fun m1 => Value.str (vals m1)) m = Value.str (vals m) :=
    fun m _ => rfl
  obtain ⟨w1, hrun1, hchar1⟩ := coerceMonths_mapMonth "high F" vals qv bb
    (by rw [hfst]; decide)
    (by decide)
    (by rw [hfst]; decide)
    hv hs MONTHS (List.Sublist.refl MONTHS) (fun m1 => Value.str (vals m1)) hw0
  have hw1 : ∀ m ∈ MONTHS, w1 m = Value.num (qv m) := by
    intro m hm
    rw [hchar1 m, if_pos hm]
  have hcoe : coerceStage
      ((MONTHS.map fun m => (monthKey m "high F", Value.str (vals m))) ++ bb) =
      Except.ok ((MONTHS.map fun m => (monthKey m "high F", w1 m)) ++ bb) := hrun1
  have hkeys1 : ((MONTHS.map fun m => (monthKey m "high F", w1 m)) ++ bb).map Prod.fst =
      (MONTHS.map fun m => monthKey m "high F") ++
        ["name", "population", "country", "city_wd", "gps_lat", "gps_lon"] := by
    simp [List.map_map, Function.comp, hfst]
  have hnum1 : ∀ m ∈ MONTHS, isNumO
      (bGet? ((MONTHS.map fun m => (monthKey m "high F", w1 m)) ++ bb)
        (monthKey m "high F")) = true := by
    intro m hm
    rw [bGet?_mapMonth "high F" w1 bb MONTHS (months_pairwise_keys "high F") m hm, hw1 m hm]
    rfl
  have hrem : removalStage ((MONTHS.map fun m => (monthKey m "high F", w1 m)) ++ bb) =
      Except.ok ((MONTHS.map fun m => (monthKey m "high F", w1 m)) ++ bb) := by
    apply removeParams_id
    intro p hp
    by_cases hpf : p = "high F"
    · subst hpf
      exact Or.inr (allFloats_of_isNum _ _ MONTHS hnum1)
    · left
      rw [bHas_false_iff, hkeys1]
      have hfact : ∀ p1 ∈ PARAMS, p1 ≠ "high F" →
          monthKey "Jan" p1 ∉ (MONTHS.map fun m => monthKey m "high F") ++
            ["name", "population", "country", "city_wd", "gps_lat", "gps_lon"] := by
        decide
      exact hfact p hp hpf
  have hjan1 : bHas ((MONTHS.map fun m => (monthKey m "high F", w1 m)) ++ bb)
      (monthKey "Jan" "high F") = true := by
    rw [bHas, bGet?_mapMonth "high F" w1 bb MONTHS (months_pairwise_keys "high F") "Jan"
      (by decide)]
    rfl
  obtain ⟨w2, hrun2, hchar2⟩ := convMonths_mapMonth "high F" f2c qv bb MONTHS
    (List.Sublist.refl MONTHS) w1 hw1
  have hw2 : ∀ m ∈ MONTHS, w2 m = Value.num (round1 (f2c (qv m))) := by
    intro m hm
    rw [hchar2 m, if_pos hm]
  have hkeys2 : ((MONTHS.map fun m => (monthKey m "high F", w2 m)) ++ bb).map Prod.fst =
      (MONTHS.map fun m => monthKey m "high F") ++
        ["name", "population", "country", "city_wd", "gps_lat", "gps_lon"] := by
    simp [List.map_map, Function.comp, hfst]
  have hconv : convStage ((MONTHS.map fun m => (monthKey m "high F", w1 m)) ++ bb) =
      Except.ok ((MONTHS.map fun m => (monthKey m "high F", w2 m)) ++ bb) := by
    rw [convStage, CONV_PARAMS, convParams, if_pos hjan1, hrun2]
    apply convParams_skip
    intro pf hpf
    rw [bHas_false_iff, hkeys2]
    have hfact : ∀ p1 ∈ (["mean F", "low F", "record high F", "record low F",
        "precipitation inch"] : List String),
        monthKey "Jan" p1 ∉ (MONTHS.map fun m => monthKey m "high F") ++
          ["name", "population", "country", "city_wd", "gps_lat", "gps_lon"] := by
      decide
    have hmem : pf.1 ∈ (["mean F", "low F", "record high F", "record low F",
        "precipitation inch"] : List String) := by
      have := List.mem_map_of_mem Prod.fst hpf
      simpa using this
    exact hfact pf.1 hmem
  have hagg : aggStage ((MONTHS.map fun m => (monthKey m "high F", w2 m)) ++ bb) =
      Except.ok ((MONTHS.map fun m => (monthKey m "high F", w2 m)) ++ bb) := by
    apply aggParams_skip
    intro pg hpg
    rw [bHas_false_iff, hkeys2]
    have hfact : ∀ p1 ∈ AGG_PARAMS.map Prod.fst,
        monthKey "Jan" p1 ∉ (MONTHS.map fun m => monthKey m "high F") ++
          ["name", "population", "country", "city_wd", "gps_lat", "gps_lon"] := by
      decide
    exact hfact pg.1 (List.mem_map_of_mem Prod.fst hpg)
  have hstd : stdevStage ((MONTHS.map fun m => (monthKey m "high F", w2 m)) ++ bb) =
      Except.ok ((MONTHS.map fun m => (monthKey m "high F", w2 m)) ++ bb) := by
    apply stdevParams_skip
    intro p hp
    rw [bHas_false_iff, hkeys2]
    have hfact : ∀ p1 ∈ STDEV_PARAMS,
        monthKey "Jan" p1 ∉ (MONTHS.map fun m => monthKey m "high F") ++
          ["name", "population", "country", "city_wd", "gps_lat", "gps_lon"] := by
      decide
    exact hfact p hp
  have hnorm : normalizeBox
      ((MONTHS.map fun m => (monthKey m "high F", Value.str (vals m))) ++ bb) =
      Except.ok ((MONTHS.map fun m => (monthKey m "high F", w2 m)) ++ bb) := by
    rw [normalizeBox]
    simp only [hcoe, checkStage_ok, hrem, hconv, hagg, hstd]
  refine ⟨(MONTHS.map fun m => (monthKey m "high F", w2 m)) ++ bb, ?_, ?_, ?_, ?_⟩
  · rw [process_city]
    simp only [hbb, hwb, hmerged, hnorm]
  · intro m hm
    rw [bGet?_mapMonth "high F" w2 bb MONTHS (months_pairwise_keys "high F") m hm, hw2 m hm]
  · apply bGet?_eq_none_of_not_mem
    rw [hkeys2]
    decide
  · apply bGet?_eq_none_of_not_mem
    rw [hkeys2]
    decide

/-- C2 witness: the Belgrade candidate with the concrete twelve-field
high F infobox produces the converted record with no year high F field. -/
theorem high_f_scenario_witness :
    ∃ r, process_city envHighF cityBelgrade [] = Except.ok ([] ++ [r]) ∧
      (∀ m ∈ MONTHS, bGet? r (monthKey m "high F") =
        some (Value.num (round1 (f2c (qvC2 m))))) ∧
      bGet? r "year high F" = none ∧
      bGet? r "year high F stdev" = none :=
  high_f_scenario envHighF cityBelgrade [] bbBelgrade valsC2 qvC2
    (by decide) (by decide) (by decide) (by decide)

/-- C2 counterexample: in the same scenario the inserted record has the
twelve converted high F fields but no year high F field at all — the
aggregation table has no high F entry — refuting the claimed year high F
average field. -/
theorem year_high_f_missing_cex :
    (process_city envHighF cityBelgrade []).map (fun db => db.map (fun r =>
      bGet? r "Jan high F" == some (Value.num (qOf 0 1)) &&
      bGet? r "Mar high F" == some (Value.num (qOf 100 1)) &&
      (bGet? r "year high F").isNone &&
      (bGet? r "year high F stdev").isNone)) = Except.ok [true] := by decide

end WikiClimate
